import Mathlib

/-!
# gripmock stub storage (`stub/storage.go`)

A shallow embedding of the in-memory stub repository of gripmock and of its
three matching strategies, followed by theorems about them.

Conventions of the embedding

* A Go `map[string]T` is an association list read with first-match lookup; the
  nil map is `none`.  Go iterates a map in an unspecified order; every loop of
  `storage.go` over a map is modelled in list order.
* A Go slice `[]T` is a `List T`; `len`, `append` and `range` do not tell the
  nil slice from the empty one.
* The global `stubStorage` is threaded explicitly: an operation takes the state
  and returns the new one when it writes it.
* The mutex `mx` is not modelled.
* The functions of the standard library and of the fuzzy-search library that
  `storage.go` calls are parameters (`Lib`, `Fmt`); `goLib` and `goFmt`
  instantiate them to evaluate the code on concrete payloads.
* A `Value` is the content of a dynamic value.  A `RefValue` carries also the
  addresses of its maps and slices, which `reflect.DeepEqual` compares before
  the contents; `equalsRef` and `containsRef` are `equals` and `contains` on
  such values.
* A `float32` or `float64` is carried by its bit pattern; the conversion of an
  integer to `float32` and the division of two `float32` round to nearest, ties
  to even.
* An error of `findStub` is a value of `FindError`; `FindError.text` gives its
  text, which for the stub-not-found error is that of `stubNotFoundError`.
-/

namespace stub

/-! ## Dynamic values -/

/-- The dynamic values held by an `interface{}` in a payload or an expectation:
the nil interface, strings, the signed integers of each width, the floats,
booleans, `map[string]interface{}` and `[]interface{}`.  A float is carried by
its IEEE-754 bit pattern. -/
inductive Value where
  | nil
  | str (s : String)
  | int (n : Int)
  | int8 (n : Int)
  | int16 (n : Int)
  | int32 (n : Int)
  | int64 (n : Int)
  | float32 (bits : Nat)
  | float64 (bits : Nat)
  | bool (b : Bool)
  | map (m : Option (List (String × Value)))
  | slice (xs : Option (List Value))

/-- The type `map[string]interface{}`; `none` is the nil map. -/
abbrev Fields := Option (List (String × Value))

/-- The comma-ok read `v, ok := m[k]` of an association list. -/
def lookup {α : Type} (k : String) : List (String × α) → Option α
  | [] => none
  | (k2, v) :: rest => if k = k2 then some v else lookup k rest

/-- The write `m[k] = v`: replaces the entry of `k`, or adds one. -/
def insert {α : Type} (k : String) (v : α) : List (String × α) → List (String × α)
  | [] => [(k, v)]
  | (k2, v2) :: rest => if k = k2 then (k, v) :: rest else (k2, v2) :: insert k v rest

/-- The entries of a map, none for the nil map. -/
def entries (m : Fields) : List (String × Value) := m.getD []

/-- The read `m[k]` of a `map[string]interface{}`: the nil interface when the
key is absent (or the map nil). -/
def index (m : Fields) (k : String) : Value := (lookup k (entries m)).getD Value.nil

/-! ## `reflect.DeepEqual` on these values -/

/-- A `float32` bit pattern is a NaN. -/
def isNaN32 (bits : Nat) : Bool := (bits / 2 ^ 23) % 2 ^ 8 == 2 ^ 8 - 1 && bits % 2 ^ 23 != 0

/-- A `float64` bit pattern is a NaN. -/
def isNaN64 (bits : Nat) : Bool := (bits / 2 ^ 52) % 2 ^ 11 == 2 ^ 11 - 1 && bits % 2 ^ 52 != 0

/-- Go's `==` on `float32`: a NaN equals nothing, the two zeros are equal. -/
def float32Eq (a b : Nat) : Bool :=
  !isNaN32 a && !isNaN32 b && (a == b || (a % 2 ^ 31 == 0 && b % 2 ^ 31 == 0))

/-- Go's `==` on `float64`: a NaN equals nothing, the two zeros are equal. -/
def float64Eq (a b : Nat) : Bool :=
  !isNaN64 a && !isNaN64 b && (a == b || (a % 2 ^ 63 == 0 && b % 2 ^ 63 == 0))

mutual
/-- The function `reflect.DeepEqual` on the contents of two `interface{}`
values, as it answers for values built apart.  `deepEqualRef` adds the
same-object shortcut of maps and slices; by `deepEqualRef_eq_deepEqual` the
two agree whenever the second value holds no NaN. -/
def deepEqual : Value → Value → Bool
  | .nil, .nil => true
  | .str a, .str b => a == b
  | .int a, .int b => a == b
  | .int8 a, .int8 b => a == b
  | .int16 a, .int16 b => a == b
  | .int32 a, .int32 b => a == b
  | .int64 a, .int64 b => a == b
  | .float32 a, .float32 b => float32Eq a b
  | .float64 a, .float64 b => float64Eq a b
  | .bool a, .bool b => a == b
  | .map none, .map none => true
  | .map (some m1), .map (some m2) => m1.length == m2.length && deepEqualEntries m1 m2
  | .slice none, .slice none => true
  | .slice (some a), .slice (some b) => deepEqualElems a b
  | _, _ => false
/-- Every entry of the first map has a deeply-equal value under its key in the second. -/
def deepEqualEntries : List (String × Value) → List (String × Value) → Bool
  | [], _ => true
  | (k, v) :: rest, m2 =>
    match lookup k m2 with
    | none => false
    | some v2 => deepEqual v v2 && deepEqualEntries rest m2
/-- Two slices have the same length and deeply-equal elements. -/
def deepEqualElems : List Value → List Value → Bool
  | [], [] => true
  | a :: as, b :: bs => deepEqual a b && deepEqualElems as bs
  | _, _ => false
end

/-! ## Library functions used by `storage.go` -/

/-- The standard-library functions `storage.go` calls and does not define. -/
structure Lib where
  /-- The function `regexp.Match(pattern, b)`: `none` when the pattern does not
  compile, else whether the pattern matches somewhere in `b`. -/
  regexpMatch : String → String → Option Bool
  /-- The function `strconv.FormatFloat(float64(x), 'f', 5, 32)` of a `float32` bit pattern. -/
  formatFloat32 : Nat → String
  /-- The function `strconv.FormatFloat(x, 'f', 5, 64)` of a `float64` bit pattern. -/
  formatFloat64 : Nat → String

/-- The function `strconv.FormatInt(n, 10)`. -/
def formatInt (n : Int) : String :=
  if n < 0 then "-" ++ Nat.repr n.natAbs else Nat.repr n.natAbs

/-- The function `strconv.FormatBool`. -/
def formatBool (b : Bool) : String := if b then "true" else "false"

/-! ## The value comparator -/

/-- The text of the error of `tryConvertValue`. -/
def conversionError : String :=
  "was not possible do infer a string representation for the value"

/-- The function `tryConvertValue`: the string and the error (`none` is the nil error). -/
def tryConvertValue (L : Lib) : Value → String × Option String
  | .str s => (s, none)
  | .int n => (formatInt n, none)
  | .int64 n => (formatInt n, none)
  | .int32 n => (formatInt n, none)
  | .float32 x => (L.formatFloat32 x, none)
  | .float64 x => (L.formatFloat64 x, none)
  | .bool b => (formatBool b, none)
  | _ => ("", some conversionError)

/-! ## The match strategies -/

/-- The function `equals`: `reflect.DeepEqual` of the two maps. -/
def equals (input1 input2 : Fields) : Bool := deepEqual (.map input1) (.map input2)

/-- The loop of `contains` over the entries of `expect`. -/
def containsLoop (actual : Fields) : List (String × Value) → Bool
  | [] => true
  | (key, val) :: rest =>
    match lookup key (entries actual) with
    | none => false
    | some actualvalue => if !deepEqual val actualvalue then false else containsLoop actual rest

/-- The function `contains`. -/
def contains (expect actual : Fields) : Bool := containsLoop actual (entries expect)

/-- The loop of `matches` over the entries of `expect`.  A pattern that does
not compile leaves `match` false (the error is only logged). -/
def matchesLoop (L : Lib) (actual : Fields) : List (String × Value) → Bool
  | [] => true
  | (keyExpect, valueExpect) :: rest =>
    if (tryConvertValue L valueExpect).2.isSome then false
    else if (tryConvertValue L (index actual keyExpect)).2.isSome then false
    else if !((L.regexpMatch (tryConvertValue L valueExpect).1
        (tryConvertValue L (index actual keyExpect)).1).getD false) then false
    else matchesLoop L actual rest

/-- The function `matches`. -/
def «matches» (L : Lib) (expect actual : Fields) : Bool := matchesLoop L actual (entries expect)

/-! ## The repository -/

/-- Modelled from the spec: the declaration of `Input` is not in `storage.go`;
its fields are the three mode mappings `storage.go` reads. -/
structure Input where
  Equals : Fields
  Contains : Fields
  Matches : Fields

/-- Modelled from the spec: the declaration of `Stub` is not in `storage.go`;
its fields are those `storeStub` reads.  The type `Output` is a parameter. -/
structure Stub (Output : Type) where
  Service : String
  Method : String
  Input : Input
  Output : Output

/-- Modelled from the spec: the declaration of `findStubPayload` is not in
`storage.go`; its fields are those `findStub` reads. -/
structure findStubPayload where
  Service : String
  Method : String
  Data : Fields

/-- The struct `storage`. -/
structure storage (Output : Type) where
  Input : Input
  Output : Output

/-- The type `stubMapping`, `map[string]map[string][]storage`.  The outer map
is never nil (it is only ever assigned a map literal); an inner map may be. -/
abbrev stubMapping (Output : Type) :=
  List (String × Option (List (String × List (storage Output))))

/-- The struct `closeMatch`. -/
structure closeMatch where
  rule : String
  expect : Fields

/-- The read `stubStorage[service]` with its comma-ok flag. -/
def serviceEntry {Output : Type} (R : stubMapping Output) (service : String) :
    Option (Option (List (String × List (storage Output)))) :=
  lookup service R

/-- The read `stubStorage[service][method]` with its comma-ok flag; reading a
nil inner map finds nothing. -/
def methodEntry {Output : Type} (R : stubMapping Output) (service method : String) :
    Option (List (storage Output)) :=
  lookup method (((lookup service R).getD none).getD [])

/-- The function `storeStub`: the new state and the returned error (always nil). -/
def storeStub {Output : Type} (R : stubMapping Output) (stub : Stub Output) :
    stubMapping Output × Option String :=
  let strg : storage Output := { Input := stub.Input, Output := stub.Output }
  let R1 := if ((lookup stub.Service R).getD none).isNone then insert stub.Service (some []) R else R
  let inner := ((lookup stub.Service R1).getD none).getD []
  let inner2 := insert stub.Method ((lookup stub.Method inner).getD [] ++ [strg]) inner
  (insert stub.Service (some inner2) R1, none)

/-- The function `allStub`. -/
def allStub {Output : Type} (R : stubMapping Output) : stubMapping Output := R

/-- The function `clearStorage`: the new state. -/
def clearStorage {Output : Type} (_R : stubMapping Output) : stubMapping Output := []

/-- The errors of `findStub`.  The last one stands for the value
`stubNotFoundError(stub, closestMatch)` and carries its two arguments. -/
inductive FindError where
  | serviceNotFound (service : String)
  | methodNotFound (service method : String)
  | emptyStubSet (service method : String)
  | stubNotFound (stub : findStubPayload) (closestMatches : List closeMatch)

/-- One mode of one stub in the loop of `findStub`: an absent (nil) mapping is
skipped; otherwise the candidate is recorded and the predicate evaluated, and
on success the loop returns the output (`Except.error`). -/
def checkMode {Output : Type} (rule : String) (expect : Fields) (holds : Bool) (out : Output)
    (closestMatch : List closeMatch) : Except Output (List closeMatch) :=
  match expect with
  | none => .ok closestMatch
  | some _ =>
    let closestMatch := closestMatch ++ [{ rule := rule, expect := expect }]
    if holds then .error out else .ok closestMatch

/-- The body of the loop of `findStub` for one stored stub. -/
def visit {Output : Type} (L : Lib) (data : Fields) (stubrange : storage Output)
    (closestMatch : List closeMatch) : Except Output (List closeMatch) :=
  match checkMode "equals" stubrange.Input.Equals
      (equals data stubrange.Input.Equals) stubrange.Output closestMatch with
  | .error out => .error out
  | .ok cm1 =>
    match checkMode "contains" stubrange.Input.Contains
        (contains stubrange.Input.Contains data) stubrange.Output cm1 with
    | .error out => .error out
    | .ok cm2 =>
      checkMode "matches" stubrange.Input.Matches
        («matches» L stubrange.Input.Matches data) stubrange.Output cm2

/-- The loop of `findStub` over the stubs of one method: the output of the
first hit (`Except.error`), or all the candidates recorded. -/
def scan {Output : Type} (L : Lib) (data : Fields) :
    List (storage Output) → List closeMatch → Except Output (List closeMatch)
  | [], closestMatch => .ok closestMatch
  | stubrange :: rest, closestMatch =>
    match visit L data stubrange closestMatch with
    | .error out => .error out
    | .ok cm => scan L data rest cm

/-- The function `findStub`. -/
def findStub {Output : Type} (L : Lib) (R : stubMapping Output) (stub : findStubPayload) :
    Except FindError Output :=
  match serviceEntry R stub.Service with
  | none => .error (.serviceNotFound stub.Service)
  | some _ =>
    match methodEntry R stub.Service stub.Method with
    | none => .error (.methodNotFound stub.Service stub.Method)
    | some stubs =>
      if stubs.length = 0 then .error (.emptyStubSet stub.Service stub.Method)
      else
        match scan L stub.Data stubs [] with
        | .error out => .ok out
        | .ok closestMatch => .error (.stubNotFound stub closestMatch)

/-! ## An instance of the library functions

The theorems below hold for every `Lib`.  To evaluate the code on concrete
payloads, `goLib` gives the two float renderings exactly and the regular
expressions of a small fragment of the RE2 syntax. -/

/-- The decimal digits of `n`, padded with zeros on the left to `width` characters. -/
def padDigits (width n : Nat) : String :=
  String.mk (List.replicate (width - (Nat.repr n).length) (Char.ofNat 48)) ++ Nat.repr n

/-- The quotient `a / b` rounded to nearest, ties to even. -/
def divRoundHalfEven (a b : Nat) : Nat :=
  let q := a / b
  let r := a % b
  if 2 * r < b then q else if b < 2 * r then q + 1 else if q % 2 = 0 then q else q + 1

/-- The format `'f'` with precision 5 of the finite value `(-1)^sign * m * 2^e`. -/
def formatFixed5 (sign : Bool) (m : Nat) (e : Int) : String :=
  let scaled :=
    if 0 ≤ e then m * 2 ^ e.toNat * 10 ^ 5 else divRoundHalfEven (m * 10 ^ 5) (2 ^ (-e).toNat)
  (if sign then "-" else "") ++ Nat.repr (scaled / 10 ^ 5) ++ "." ++ padDigits 5 (scaled % 10 ^ 5)

/-- The format `'f'` with precision 5 of a binary float with `mbits` fraction
bits and `ebits` exponent bits: `NaN`, `+Inf` and `-Inf` apart, the exact
value is rounded to five decimals. -/
def formatFloatBits (mbits ebits bits : Nat) : String :=
  let frac := bits % 2 ^ mbits
  let ex := (bits / 2 ^ mbits) % 2 ^ ebits
  let sign := (bits / 2 ^ (mbits + ebits)) % 2 == 1
  if ex = 2 ^ ebits - 1 then
    if frac ≠ 0 then "NaN" else if sign then "-Inf" else "+Inf"
  else if ex = 0 then
    formatFixed5 sign frac (2 - (2 ^ (ebits - 1) : Nat) - (mbits : Nat))
  else
    formatFixed5 sign (2 ^ mbits + frac) ((ex : Int) + 1 - (2 ^ (ebits - 1) : Nat) - (mbits : Nat))

/-- One character of a pattern of the fragment. -/
inductive Atom where
  | lit (c : Char)
  | any

/-- An atom, starred or not. -/
structure Piece where
  atom : Atom
  star : Bool

/-- The characters with a special meaning in the RE2 syntax. -/
def isMeta (c : Char) : Bool := "\\.+*?()|[]\x7b\x7d^$".toList.contains c

/-- The atom a pattern character stands for, none outside the fragment. -/
def atomOf (c : Char) : Option Atom :=
  if c = Char.ofNat 46 then some .any else if isMeta c then none else some (.lit c)

/-- The pieces of a pattern without anchors. -/
def parsePieces : List Char → Option (List Piece)
  | [] => some []
  | [c] => (atomOf c).map fun a => [{ atom := a, star := false }]
  | c :: d :: rest =>
    if d = Char.ofNat 42 then
      match atomOf c, parsePieces rest with
      | some a, some ps => some ({ atom := a, star := true } :: ps)
      | _, _ => none
    else
      match atomOf c, parsePieces (d :: rest) with
      | some a, some ps => some ({ atom := a, star := false } :: ps)
      | _, _ => none

/-- An atom accepts a character (`.` accepts all but the newline). -/
def atomOk : Atom → Char → Bool
  | .lit c, x => c == x
  | .any, x => x != Char.ofNat 10

/-- Zero or more characters accepted by `a`, then the continuation `k`. -/
def starLoop (k : List Char → Bool) (a : Atom) : List Char → Bool
  | [] => k []
  | c :: cs => k (c :: cs) || (atomOk a c && starLoop k a cs)

/-- The pieces match a prefix of the text (all of it when `toEnd`). -/
def matchHere (toEnd : Bool) : List Piece → List Char → Bool
  | [], s => !toEnd || s.isEmpty
  | p :: ps, s =>
    if p.star then starLoop (matchHere toEnd ps) p.atom s
    else
      match s with
      | [] => false
      | c :: cs => atomOk p.atom c && matchHere toEnd ps cs

/-- The predicate `m` holds at some suffix of the text. -/
def searchLoop (m : List Char → Bool) : List Char → Bool
  | [] => m []
  | c :: cs => m (c :: cs) || searchLoop m cs

/-- The function `regexp.Match` on the patterns made of literal characters,
`.`, a `*` after one of them, a leading `^` and a trailing `$`; a pattern
outside this fragment is reported as one that does not compile. -/
def fragmentMatch (pattern text : String) : Option Bool :=
  let p := pattern.toList
  let fromStart := p.head? == some (Char.ofNat 94)
  let p1 := if fromStart then p.drop 1 else p
  let toEnd := p1.getLast? == some (Char.ofNat 36)
  let p2 := if toEnd then p1.dropLast else p1
  (parsePieces p2).map fun ps =>
    if fromStart then matchHere toEnd ps text.toList
    else searchLoop (matchHere toEnd ps) text.toList

/-- The library functions, regular expressions restricted to the fragment. -/
def goLib : Lib where
  regexpMatch := fragmentMatch
  formatFloat32 := formatFloatBits 23 8
  formatFloat64 := formatFloatBits 52 11

/-! ## Reading the loop of `findStub` -/

/-- Some populated mode of the stub (a mapping that is not nil) holds on the payload. -/
def hits {Output : Type} (L : Lib) (data : Fields) (s : storage Output) : Bool :=
  (s.Input.Equals.isSome && equals data s.Input.Equals)
    || (s.Input.Contains.isSome && contains s.Input.Contains data)
    || (s.Input.Matches.isSome && «matches» L s.Input.Matches data)

/-- The candidate of one mode: none for a nil mapping. -/
def candidate (rule : String) (expect : Fields) : List closeMatch :=
  if expect.isSome then [{ rule := rule, expect := expect }] else []

/-- The candidates of one stub, in the order `findStub` records them. -/
def candidates {Output : Type} (s : storage Output) : List closeMatch :=
  candidate "equals" s.Input.Equals ++ candidate "contains" s.Input.Contains
    ++ candidate "matches" s.Input.Matches

/-! ## Sample data -/

/-- A stub of `Svc`/`Get` that asks for the field `a` to be 1 among others. -/
def stubFirst : Stub String :=
  { Service := "Svc", Method := "Get",
    Input := { Equals := none, Contains := some [("a", .int 1)], Matches := none },
    Output := "first" }

/-- A stub of `Svc`/`Get` that asks for the payload to be exactly `a: 1`. -/
def stubSecond : Stub String :=
  { Service := "Svc", Method := "Get",
    Input := { Equals := some [("a", .int 1)], Contains := none, Matches := none },
    Output := "second" }

/-- The repository after registering `stubFirst`, then `stubSecond`. -/
def repoTwo : stubMapping String := (storeStub (storeStub [] stubFirst).1 stubSecond).1

/-- The query `Svc`/`Get` with payload `a: 1`. -/
def queryA : findStubPayload := { Service := "Svc", Method := "Get", Data := some [("a", .int 1)] }

/-! ## Values that equal their copies -/

/-- The keys of an association list are pairwise distinct. -/
def keysDistinct {α : Type} : List (String × α) → Bool
  | [] => true
  | (k, _) :: rest => (lookup k rest).isNone && keysDistinct rest

mutual
/-- Every map inside the value has pairwise distinct keys, as every Go map has. -/
def distinctKeys : Value → Bool
  | .map (some m) => keysDistinct m && distinctKeysEntries m
  | .slice (some xs) => distinctKeysElems xs
  | _ => true
/-- The values of the entries have maps with distinct keys. -/
def distinctKeysEntries : List (String × Value) → Bool
  | [] => true
  | (_, v) :: rest => distinctKeys v && distinctKeysEntries rest
/-- The elements have maps with distinct keys. -/
def distinctKeysElems : List Value → Bool
  | [] => true
  | v :: rest => distinctKeys v && distinctKeysElems rest
end

mutual
/-- No floating-point NaN occurs in the value, at any depth. -/
def noNaN : Value → Bool
  | .float32 bits => !isNaN32 bits
  | .float64 bits => !isNaN64 bits
  | .map (some m) => noNaNEntries m
  | .slice (some xs) => noNaNElems xs
  | _ => true
/-- No NaN occurs in the values of the entries. -/
def noNaNEntries : List (String × Value) → Bool
  | [] => true
  | (_, v) :: rest => noNaN v && noNaNEntries rest
/-- No NaN occurs in the elements. -/
def noNaNElems : List Value → Bool
  | [] => true
  | v :: rest => noNaN v && noNaNElems rest
end

/-- A quiet NaN of type `float64`. -/
def nan64 : Nat := 0x7FF8000000000000

/-- A stub of `Svc`/`Get` whose equals mapping holds a NaN. -/
def stubNaN : Stub String :=
  { Service := "Svc", Method := "Get",
    Input := { Equals := some [("a", .float64 nan64)], Contains := none, Matches := none },
    Output := "out" }

/-! ## Reading `equals` -/

/-- The Go type of a dynamic value. -/
def typeName : Value → String
  | .nil => "nil"
  | .str _ => "string"
  | .int _ => "int"
  | .int8 _ => "int8"
  | .int16 _ => "int16"
  | .int32 _ => "int32"
  | .int64 _ => "int64"
  | .float32 _ => "float32"
  | .float64 _ => "float64"
  | .bool _ => "bool"
  | .map _ => "map[string]interface {}"
  | .slice _ => "[]interface {}"

/-- Two association lists have the same key set, and every key of the first
maps to deeply-equal values in both. -/
def sameEntries (d e : List (String × Value)) : Prop :=
  (∀ k, k ∈ d.map Prod.fst ↔ k ∈ e.map Prod.fst) ∧
    ∀ k v, lookup k d = some v → ∃ w, lookup k e = some w ∧ deepEqual v w = true

/-- A stub of `Svc`/`Get` whose only mode is the equals mapping `a: 1, b: "x"`. -/
def stubEq : Stub String :=
  { Service := "Svc", Method := "Get",
    Input := { Equals := some [("a", .int 1), ("b", .str "x")], Contains := none,
               Matches := none },
    Output := "eq" }

/-- A stub of `Svc`/`Get` whose contains mapping is present and empty, as
decoded from `"contains": {}`; the two other modes are unset. -/
def stubEmptyContains : Stub String :=
  { Service := "Svc", Method := "Get",
    Input := { Equals := none, Contains := some [], Matches := none },
    Output := "any" }

/-- A stub of `Svc`/`Get` whose equals mapping is present and empty; the two
other modes are unset. -/
def stubEmptyEquals : Stub String :=
  { Service := "Svc", Method := "Get",
    Input := { Equals := some [], Contains := none, Matches := none },
    Output := "none" }

/-- The query `Svc`/`Get` with payload `a: "x"`. -/
def queryX : findStubPayload :=
  { Service := "Svc", Method := "Get", Data := some [("a", .str "x")] }

/-- A stub of `Svc`/`Create`. -/
def stubCreate : Stub String :=
  { Service := "Svc", Method := "Create",
    Input := { Equals := some [("a", .int 1)], Contains := none, Matches := none },
    Output := "created" }

/-! ## Reading `tryConvertValue` -/

/-- The kinds outside the scalars: the nil interface (an absent key reads as
it), a nested mapping, a slice. -/
def unsupported : Value → Bool
  | .nil => true
  | .map _ => true
  | .slice _ => true
  | _ => false

/-! ## Operations with the state they leave -/

/-- The state after a sequence of calls of `storeStub`. -/
def storeAll {Output : Type} (R : stubMapping Output) (stubs : List (Stub Output)) :
    stubMapping Output :=
  stubs.foldl (fun R1 s => (storeStub R1 s).1) R

/-- The kind of an error of `findStub`. -/
def FindError.kind : FindError → String
  | .serviceNotFound _ => "ServiceNotFound"
  | .methodNotFound _ _ => "MethodNotFound"
  | .emptyStubSet _ _ => "EmptyStubSet"
  | .stubNotFound _ _ => "StubNotFound"

/-- The outcome of a lookup: the output, or the kind of the error. -/
def outcome {Output : Type} : Except FindError Output → Except String Output
  | .ok out => .ok out
  | .error e => .error e.kind

/-! ## Reachable states -/

/-- The states reached from the empty repository by calls of `storeStub` and
`clearStorage`. -/
inductive Reachable {Output : Type} : stubMapping Output → Prop where
  | empty : Reachable []
  | store (R : stubMapping Output) (s : Stub Output) : Reachable R → Reachable (storeStub R s).1
  | clear (R : stubMapping Output) : Reachable R → Reachable (clearStorage R)

/-- Every service present has a map that is not nil and holds a method, and
every method present has a list that holds a stub. -/
def populated {Output : Type} (R : stubMapping Output) : Prop :=
  ∀ service inner, lookup service R = some inner →
    ∃ methods, inner = some methods ∧ methods ≠ [] ∧
      ∀ method stubs, lookup method methods = some stubs → stubs ≠ []

/-! ## Arithmetic of `float32`

The rank of `rankMatch` is a `float32`, carried by its bit pattern as in
`Value.float32`. -/

/-- The number of halvings that bring `n` below 2, at most `fuel` of them. -/
def log2Fuel : Nat → Nat → Nat
  | 0, _ => 0
  | fuel + 1, n => if n < 2 then 0 else log2Fuel fuel (n / 2) + 1

/-- The integer part of the binary logarithm of `n` (0 for 0). -/
def floorLog2 (n : Nat) : Nat := log2Fuel n n

/-- The bits of positive infinity. -/
def inf32 : Nat := 0x7F800000

/-- The bits of a quiet NaN. -/
def nan32 : Nat := 0x7FC00000

/-- The bits of 1. -/
def one32 : Nat := 0x3F800000

/-- The bits of the `float32` nearest to the positive rational `p / q`, ties
to even; `B` is the biased exponent, 1 for the subnormals, and the result is
infinity when the rounded value exceeds the largest `float32`. -/
def roundToFloat32 (p q : Nat) : Nat :=
  let B := max 1 (floorLog2 (p * 2 ^ 127 / q))
  let m :=
    if B ≤ 150 then divRoundHalfEven (p * 2 ^ (150 - B)) q
    else divRoundHalfEven p (q * 2 ^ (B - 150))
  min ((B - 1) * 2 ^ 23 + m) inf32

/-- The conversion `float32(n)` of an integer. -/
def float32OfInt (n : Int) : Nat :=
  if n = 0 then 0
  else if n < 0 then 2 ^ 31 + roundToFloat32 n.natAbs 1
  else roundToFloat32 n.natAbs 1

/-- The value of a finite magnitude (the bits without the sign), in units of `2^-149`. -/
def float32Units (mag : Nat) : Nat :=
  if mag / 2 ^ 23 = 0 then mag % 2 ^ 23 else (2 ^ 23 + mag % 2 ^ 23) * 2 ^ (mag / 2 ^ 23 - 1)

/-- The quotient `a / b` of two `float32`. -/
def float32Div (a b : Nat) : Nat :=
  let sign := (a / 2 ^ 31 + b / 2 ^ 31) % 2 * 2 ^ 31
  let ma := a % 2 ^ 31
  let mb := b % 2 ^ 31
  if isNaN32 a || isNaN32 b then nan32
  else if ma = inf32 then (if mb = inf32 then nan32 else sign + inf32)
  else if mb = inf32 then sign
  else if mb = 0 then (if ma = 0 then nan32 else sign + inf32)
  else if ma = 0 then sign
  else sign + roundToFloat32 (float32Units ma) (float32Units mb)

/-- A key whose order on the naturals is the order of the values of the
`float32` that are not NaN; the two zeros have the same key. -/
def float32Key (bits : Nat) : Nat :=
  if bits / 2 ^ 31 % 2 = 1 then 2 ^ 31 - bits % 2 ^ 31 else 2 ^ 31 + bits % 2 ^ 31

/-- Go's `>` on `float32`: false as soon as one side is a NaN. -/
def float32Gt (a b : Nat) : Bool :=
  !isNaN32 a && !isNaN32 b && decide (float32Key b < float32Key a)

/-! ## The diagnostics of a failed lookup -/

/-- The functions of `fmt` and of the fuzzy-search library that the
diagnostics call and `storage.go` does not define. -/
structure Fmt where
  /-- The function `fuzzy.Match(source, target)`. -/
  fuzzyMatch : String → String → Bool
  /-- The function `fmt.Sprint(v)` of one value, which is also what the verb `%v` prints. -/
  sprint : Value → String
  /-- The text of the error `fmt.Errorf(format)` called without operand. -/
  errorf : String → String

/-- The function `renderFieldAsString`: one line `\t%s: %v\n` per entry. -/
def renderFieldAsString (F : Fmt) (fields : Fields) : String :=
  (entries fields).foldl (fun template kv => template ++ ("\t" ++ kv.1 ++ ": " ++ F.sprint kv.2 ++ "\n"))
    "\x7b\n" ++ "\x7d"

/-- The loop of `rankMatch`: the count of the keys, followed by a colon, and of
the printed values that `fuzzy.Match` finds in the text. -/
def countOccurence (F : Fmt) (expect : String) : List (String × Value) → Nat → Nat
  | [], occurence => occurence
  | (key, value) :: rest, occurence =>
    let occurence1 := if F.fuzzyMatch (key ++ ":") expect then occurence + 1 else occurence
    let occurence2 := if F.fuzzyMatch (F.sprint value) expect then occurence1 + 1 else occurence1
    countOccurence F expect rest occurence2

/-- The function `rankMatch`: the bits of the `float32` returned. -/
def rankMatch (F : Fmt) (expect : String) (closeMatch : Fields) : Nat :=
  let occurence := countOccurence F expect (entries closeMatch) 0
  if occurence = 0 then 0
  else
    let totalFields := (entries closeMatch).length * 2
    float32Div (float32OfInt occurence) (float32OfInt totalFields)

/-- The loop of `stubNotFoundError` over the candidates: the highest rank met
and the candidate that brought it. -/
def highestRankLoop (F : Fmt) (expectString : String) :
    List closeMatch → Nat × closeMatch → Nat × closeMatch
  | [], highestRank => highestRank
  | closeMatchValue :: rest, highestRank =>
    let rank := rankMatch F expectString closeMatchValue.expect
    if float32Gt rank highestRank.1 then highestRankLoop F expectString rest (rank, closeMatchValue)
    else highestRankLoop F expectString rest highestRank

/-- The candidate `stubNotFoundError` names, for a list it has found not
empty: `none` stands for the run-time panic of `closestMatches[0]`. -/
def closestMatchOf (F : Fmt) (expectString : String) (closestMatches : List closeMatch) :
    Option closeMatch :=
  let highestRank := highestRankLoop F expectString closestMatches
    (0, { rule := "", expect := none })
  if float32Eq highestRank.1 0 then closestMatches.head? else some highestRank.2

/-- The head of the message of `stubNotFoundError`. -/
def notFoundHeader (stub : findStubPayload) : String :=
  "Can\x27t find stub \n\nService: " ++ stub.Service ++ " \n\nMethod: " ++ stub.Method
    ++ " \n\nInput\n\n"

/-- The message `stubNotFoundError` assembles and passes to `fmt.Errorf` as
its format; `none` stands for a run-time panic. -/
def notFoundTemplate (F : Fmt) (stub : findStubPayload) (closestMatches : List closeMatch) :
    Option String :=
  let template := notFoundHeader stub
  let expectString := renderFieldAsString F stub.Data
  let template := template ++ expectString
  if closestMatches.length = 0 then some template
  else
    match closestMatchOf F expectString closestMatches with
    | none => none
    | some closestMatch =>
      let closestMatchString := renderFieldAsString F closestMatch.expect
      some (template ++ ("\n\nClosest Match \n\n" ++ closestMatch.rule ++ ":" ++ closestMatchString))

/-- The function `stubNotFoundError`: the text of the error returned, `none`
for a run-time panic. -/
def stubNotFoundError (F : Fmt) (stub : findStubPayload) (closestMatches : List closeMatch) :
    Option String :=
  (notFoundTemplate F stub closestMatches).map F.errorf

/-- The text of an error of `findStub`. -/
def FindError.text (F : Fmt) : FindError → Option String
  | .serviceNotFound service => some ("Can\x27t find stub for Service: " ++ service)
  | .methodNotFound service method =>
    some ("Can\x27t find stub for Service:" ++ service ++ " and Method:" ++ method)
  | .emptyStubSet service method =>
    some ("Stub for Service:" ++ service ++ " and Method:" ++ method ++ " is empty")
  | .stubNotFound stub closestMatches => stubNotFoundError F stub closestMatches

/-! ## An instance of the functions of the diagnostics -/

/-- The text behind the first occurrence of the character, if it occurs. -/
def consumeRune (r : Char) : List Char → Option (List Char)
  | [] => none
  | c :: cs => if r = c then some cs else consumeRune r cs

/-- The characters of the source occur in the target, in this order. -/
def subsequence : List Char → List Char → Bool
  | [], _ => true
  | r :: rs, target =>
    match consumeRune r target with
    | none => false
    | some rest => subsequence rs rest

/-- The function `fuzzy.Match`: a source longer than the target never matches,
equal strings match, and otherwise the source must be a subsequence of the target. -/
def fuzzyMatchRef (source target : String) : Bool :=
  if target.utf8ByteSize < source.utf8ByteSize then false
  else if target.utf8ByteSize = source.utf8ByteSize ∧ source = target then true
  else subsequence source.toList target.toList

/-- The verb `%v` on a float with `mbits` fraction bits and `ebits` exponent
bits that holds an integer of fewer than seven digits, a zero, an infinity or
a NaN.  The other floats are printed by `fmt` with their shortest digits; they
are outside this fragment and rendered here in fixed notation. -/
def sprintFloatBits (mbits ebits bits : Nat) : String :=
  let frac := bits % 2 ^ mbits
  let ex := (bits / 2 ^ mbits) % 2 ^ ebits
  let sign := (bits / 2 ^ (mbits + ebits)) % 2 == 1
  let shift := 2 ^ (ebits - 1) - 1 + mbits
  if ex = 2 ^ ebits - 1 then
    if frac ≠ 0 then "NaN" else if sign then "-Inf" else "+Inf"
  else if ex = 0 ∧ frac = 0 then (if sign then "-0" else "0")
  else if ex ≠ 0 ∧ shift ≤ ex ∧ (2 ^ mbits + frac) * 2 ^ (ex - shift) < 10 ^ 6 then
    (if sign then "-" else "") ++ Nat.repr ((2 ^ mbits + frac) * 2 ^ (ex - shift))
  else if ex ≠ 0 ∧ ex < shift ∧ (2 ^ mbits + frac) % 2 ^ (shift - ex) = 0
      ∧ (2 ^ mbits + frac) / 2 ^ (shift - ex) < 10 ^ 6 then
    (if sign then "-" else "") ++ Nat.repr ((2 ^ mbits + frac) / 2 ^ (shift - ex))
  else formatFloatBits mbits ebits bits

/-- The entry `(k, s)` put at its place in a list sorted by key. -/
def insertByKey (k s : String) : List (String × String) → List (String × String)
  | [] => [(k, s)]
  | (k2, s2) :: rest =>
    if k < k2 then (k, s) :: (k2, s2) :: rest else (k2, s2) :: insertByKey k s rest

mutual
/-- The function `fmt.Sprint` of one value: a map is printed with its keys
sorted, a string without quotes. -/
def sprintValue : Value → String
  | .nil => "<nil>"
  | .str s => s
  | .int n => formatInt n
  | .int8 n => formatInt n
  | .int16 n => formatInt n
  | .int32 n => formatInt n
  | .int64 n => formatInt n
  | .float32 bits => sprintFloatBits 23 8 bits
  | .float64 bits => sprintFloatBits 52 11 bits
  | .bool b => formatBool b
  | .map none => "map[]"
  | .map (some m) =>
    "map[" ++ " ".intercalate ((sprintEntries m).map fun ks => ks.1 ++ ":" ++ ks.2) ++ "]"
  | .slice none => "[]"
  | .slice (some xs) => "[" ++ " ".intercalate (sprintElems xs) ++ "]"
/-- The printed entries of a map, sorted by key. -/
def sprintEntries : List (String × Value) → List (String × String)
  | [] => []
  | (k, v) :: rest => insertByKey k (sprintValue v) (sprintEntries rest)
/-- The printed elements of a slice. -/
def sprintElems : List Value → List String
  | [] => []
  | v :: rest => sprintValue v :: sprintElems rest
end

/-- The text `fmt` prints for a format without operand, on the formats in
which a `%` is followed at once by its verb or ends the format: `%%` prints a
percent sign, another verb prints `%!verb(MISSING)`, a final `%` prints
`%!(NOVERB)`.  Flags, widths, precisions and argument indexes are outside this
fragment. -/
def formatNoOperand : List Char → List Char
  | [] => []
  | [c] => if c = Char.ofNat 37 then "%!(NOVERB)".toList else [c]
  | c :: d :: rest =>
    if c = Char.ofNat 37 then
      if d = Char.ofNat 37 then d :: formatNoOperand rest
      else "%!".toList ++ d :: "(MISSING)".toList ++ formatNoOperand rest
    else c :: formatNoOperand (d :: rest)

/-- The functions of the diagnostics, on the fragments stated with each. -/
def goFmt : Fmt where
  fuzzyMatch := fuzzyMatchRef
  sprint := sprintValue
  errorf := fun format => String.mk (formatNoOperand format.toList)

/-- The count the claim of `rankMatch` describes: one for each entry whose key
followed by a colon is found in the text, plus one for each entry whose printed
value is found in it. -/
def occurrences (F : Fmt) (text : String) (l : List (String × Value)) : Nat :=
  l.countP (fun kv => F.fuzzyMatch (kv.1 ++ ":") text)
    + l.countP (fun kv => F.fuzzyMatch (F.sprint kv.2) text)

/-- The rendering of the payload `a: 1, b: "x"`. -/
def textAB : String := renderFieldAsString goFmt (some [("a", .int 1), ("b", .str "x")])

/-- The candidates of a failed lookup of the payload `a: "x"`: one without any
occurrence in the rendered payload, then two with the same, maximal rank. -/
def sampleCandidates : List closeMatch :=
  [{ rule := "equals", expect := some [("q", .str "zz")] },
   { rule := "contains", expect := some [("a", .str "x")] },
   { rule := "matches", expect := some [("a", .str "x")] }]

/-- The query `Svc`/`Get` with payload `a: "%d"`. -/
def queryPercent : findStubPayload :=
  { Service := "Svc", Method := "Get", Data := some [("a", .str "%d")] }

/-- The text of the error of a lookup, none when it returns an output. -/
def errorText {Output : Type} (F : Fmt) : Except FindError Output → Option String
  | .ok _ => none
  | .error e => e.text F

/-! ## The operations as programs over `stubStorage`

Each operation is written statement by statement as a program over the global
`stubStorage`: `get` is a read of the global, `set` an assignment to it or a
write into a map reachable from it. -/

/-- The body of `storeStub`: the read of `stubStorage[stub.Service]`, the
assignment of a new inner map when it is nil, and the write of the extended list. -/
def storeStubProg {Output : Type} (stub : Stub Output) :
    StateM (stubMapping Output) (Option String) := do
  let strg : storage Output := { Input := stub.Input, Output := stub.Output }
  let s1 ← get
  if ((lookup stub.Service s1).getD none).isNone then
    set (insert stub.Service (some []) s1)
  let s2 ← get
  let inner := ((lookup stub.Service s2).getD none).getD []
  set (insert stub.Service
    (some (insert stub.Method ((lookup stub.Method inner).getD [] ++ [strg]) inner)) s2)
  pure none

/-- The body of `allStub`: one read of `stubStorage`. -/
def allStubProg {Output : Type} : StateM (stubMapping Output) (stubMapping Output) := do
  let s ← get
  pure s

/-- The body of `clearStorage`: one assignment to `stubStorage`. -/
def clearStorageProg {Output : Type} : StateM (stubMapping Output) Unit :=
  set ([] : stubMapping Output)

/-- The body of `findStub`: three reads of `stubStorage`, the loop over the
list read, and the construction of the error. -/
def findStubProg {Output : Type} (L : Lib) (stub : findStubPayload) :
    StateM (stubMapping Output) (Except FindError Output) := do
  let s1 ← get
  if (lookup stub.Service s1).isNone then
    pure (.error (.serviceNotFound stub.Service))
  else
    let s2 ← get
    if (lookup stub.Method (((lookup stub.Service s2).getD none).getD [])).isNone then
      pure (.error (.methodNotFound stub.Service stub.Method))
    else
      let s3 ← get
      let stubs := (lookup stub.Method (((lookup stub.Service s3).getD none).getD [])).getD []
      if stubs.length = 0 then
        pure (.error (.emptyStubSet stub.Service stub.Method))
      else
        match scan L stub.Data stubs [] with
        | .error out => pure (.ok out)
        | .ok closestMatch => pure (.error (.stubNotFound stub closestMatch))

/-! ## Values with the identity of their maps and slices

`reflect.DeepEqual` answers true at once for two maps, or two slices, that are
the same object.  `RefValue` adds to each map the address of its object and to
each slice the address of its first element, and `deepEqualRef` is
`reflect.DeepEqual` with this shortcut.  The values are finite trees, on which
the record that `reflect.DeepEqual` keeps of the pairs it has visited, to stop
on a cycle, changes no answer. -/

/-- A dynamic value in which a map carries the address of its object and a
slice that of its first element. -/
inductive RefValue where
  | nil
  | str (s : String)
  | int (n : Int)
  | int8 (n : Int)
  | int16 (n : Int)
  | int32 (n : Int)
  | int64 (n : Int)
  | float32 (bits : Nat)
  | float64 (bits : Nat)
  | bool (b : Bool)
  | map (addr : Nat) (m : Option (List (String × RefValue)))
  | slice (addr : Nat) (xs : Option (List RefValue))

mutual
/-- The content of a value, the addresses forgotten. -/
def erase : RefValue → Value
  | .nil => .nil
  | .str s => .str s
  | .int n => .int n
  | .int8 n => .int8 n
  | .int16 n => .int16 n
  | .int32 n => .int32 n
  | .int64 n => .int64 n
  | .float32 bits => .float32 bits
  | .float64 bits => .float64 bits
  | .bool b => .bool b
  | .map _ none => .map none
  | .map _ (some m) => .map (some (eraseEntries m))
  | .slice _ none => .slice none
  | .slice _ (some xs) => .slice (some (eraseElems xs))
/-- The content of the entries of a map. -/
def eraseEntries : List (String × RefValue) → List (String × Value)
  | [] => []
  | (k, v) :: rest => (k, erase v) :: eraseEntries rest
/-- The content of the elements of a slice. -/
def eraseElems : List RefValue → List Value
  | [] => []
  | v :: rest => erase v :: eraseElems rest
end

mutual
/-- The function `reflect.DeepEqual` on two `interface{}` values: two maps, or
two slices, neither nil and of the same length, are equal at once when they
are the same object. -/
def deepEqualRef : RefValue → RefValue → Bool
  | .nil, .nil => true
  | .str a, .str b => a == b
  | .int a, .int b => a == b
  | .int8 a, .int8 b => a == b
  | .int16 a, .int16 b => a == b
  | .int32 a, .int32 b => a == b
  | .int64 a, .int64 b => a == b
  | .float32 a, .float32 b => float32Eq a b
  | .float64 a, .float64 b => float64Eq a b
  | .bool a, .bool b => a == b
  | .map _ none, .map _ none => true
  | .map a1 (some m1), .map a2 (some m2) =>
    m1.length == m2.length && (a1 == a2 || deepEqualRefEntries m1 m2)
  | .slice _ none, .slice _ none => true
  | .slice a1 (some xs), .slice a2 (some ys) =>
    xs.length == ys.length && (a1 == a2 || deepEqualRefElems xs ys)
  | _, _ => false
/-- Every entry of the first map has a deeply-equal value under its key in the second. -/
def deepEqualRefEntries : List (String × RefValue) → List (String × RefValue) → Bool
  | [], _ => true
  | (k, v) :: rest, m2 =>
    match lookup k m2 with
    | none => false
    | some v2 => deepEqualRef v v2 && deepEqualRefEntries rest m2
/-- The elements of two slices are deeply equal one by one. -/
def deepEqualRefElems : List RefValue → List RefValue → Bool
  | [], [] => true
  | a :: as, b :: bs => deepEqualRef a b && deepEqualRefElems as bs
  | _, _ => false
end

mutual
/-- Two values are coherent when, wherever `reflect.DeepEqual` meets in them
two maps of the same address, or two slices of the same address and length,
these have the same content, as one object has. -/
def coherent : RefValue → RefValue → Prop
  | .map a1 (some m1), .map a2 (some m2) =>
    (a1 = a2 → eraseEntries m1 = eraseEntries m2) ∧ coherentEntries m1 m2
  | .slice a1 (some xs), .slice a2 (some ys) =>
    (a1 = a2 → xs.length = ys.length → eraseElems xs = eraseElems ys) ∧ coherentElems xs ys
  | _, _ => True
/-- The values of the first map are coherent with those under the same keys in the second. -/
def coherentEntries : List (String × RefValue) → List (String × RefValue) → Prop
  | [], _ => True
  | (k, v) :: rest, m2 =>
    (match lookup k m2 with
      | none => True
      | some v2 => coherent v v2) ∧ coherentEntries rest m2
/-- The elements of two slices are coherent one by one. -/
def coherentElems : List RefValue → List RefValue → Prop
  | [], _ => True
  | _ :: _, [] => True
  | a :: as, b :: bs => coherent a b ∧ coherentElems as bs
end

/-- The type `map[string]interface{}` with the address of the map object;
`m` is `none` for the nil map. -/
structure RefFields where
  /-- The address of the map object. -/
  addr : Nat
  /-- The entries of the map. -/
  m : Option (List (String × RefValue))

/-- The map as an `interface{}` value. -/
def RefFields.value (f : RefFields) : RefValue := .map f.addr f.m

/-- The content of the map, its address and those inside it forgotten. -/
def RefFields.content (f : RefFields) : Fields := f.m.map eraseEntries

/-- The function `equals` on two maps with their addresses: `reflect.DeepEqual`
of the two maps. -/
def equalsRef (input1 input2 : RefFields) : Bool := deepEqualRef input1.value input2.value

/-- The loop of `contains` over the entries of `expect`, on maps with their addresses. -/
def containsRefLoop (actual : RefFields) : List (String × RefValue) → Bool
  | [] => true
  | (key, val) :: rest =>
    match lookup key (actual.m.getD []) with
    | none => false
    | some actualvalue =>
      if !deepEqualRef val actualvalue then false else containsRefLoop actual rest

/-- The function `contains` on two maps with their addresses. -/
def containsRef (expect actual : RefFields) : Bool :=
  containsRefLoop actual (expect.m.getD [])

/-- A map object, at address 1, whose entry `a` is a `float64` NaN. -/
def mapNaN : RefFields := { addr := 1, m := some [("a", .float64 nan64)] }

/-- A map object, at address 7, with the entry `n: 2`. -/
def subMap : RefValue := .map 7 (some [("n", .int 2)])

/-- A payload, at address 1, with the entries `sub`, the object `subMap`, and `a: 1`. -/
def dataShared : RefFields := { addr := 1, m := some [("sub", subMap), ("a", .int 1)] }

/-- An expectation, at address 2, with the entries `a: 1` and `sub`, the same
object `subMap` as in `dataShared`. -/
def expectShared : RefFields := { addr := 2, m := some [("a", .int 1), ("sub", subMap)] }

/-- A payload, at address 3, with the entries `a: 1, b: 2`. -/
def dataAB : RefFields := { addr := 3, m := some [("a", .int 1), ("b", .int 2)] }

/-- An expectation, at address 4, with the entry `a: 1`. -/
def expectA : RefFields := { addr := 4, m := some [("a", .int 1)] }

/-- A stub of `Svc`/`Get` whose only mode is the equals mapping `id: 7, x: NaN`,
the NaN of type `float32`. -/
def stubNaN32 : Stub String :=
  { Service := "Svc", Method := "Get",
    Input := { Equals := some [("id", .int 7), ("x", .float32 nan32)], Contains := none,
               Matches := none },
    Output := "out" }

/-- A map object, at address 5, with the entries `id: 7, x: NaN`. -/
def mapNaN32 : RefFields := { addr := 5, m := some [("id", .int 7), ("x", .float32 nan32)] }

/-! # Theorems -/

/-! ## Lemmas on association lists -/

theorem lookup_insert_self {α : Type} (k : String) (v : α) (l : List (String × α)) :
    lookup k (insert k v l) = some v := by
  induction l with
  | nil => simp [insert, lookup]
  | cons p rest ih =>
    obtain ⟨k2, v2⟩ := p
    by_cases h : k = k2
    · simp [insert, lookup, h]
    · simp [insert, lookup, h, ih]

theorem lookup_insert_other {α : Type} (k k2 : String) (v : α) (l : List (String × α))
    (h : k2 ≠ k) : lookup k2 (insert k v l) = lookup k2 l := by
  induction l with
  | nil => simp [insert, lookup, h]
  | cons p rest ih =>
    obtain ⟨k3, v3⟩ := p
    by_cases h3 : k = k3
    · subst h3
      simp [insert, lookup, h]
    · simp only [insert, h3, if_false, lookup, ih]

theorem mem_of_lookup_eq_some {α : Type} {l : List (String × α)} {k : String} {v : α}
    (h : lookup k l = some v) : (k, v) ∈ l := by
  induction l with
  | nil => simp [lookup] at h
  | cons p rest ih =>
    obtain ⟨k2, v2⟩ := p
    by_cases hk : k = k2
    · subst hk
      simp [lookup] at h
      simp [h]
    · simp only [lookup, hk, if_false] at h
      exact List.mem_cons_of_mem _ (ih h)

theorem lookup_eq_none_iff {α : Type} (l : List (String × α)) (k : String) :
    lookup k l = none ↔ k ∉ l.map Prod.fst := by
  induction l with
  | nil => simp [lookup]
  | cons p rest ih =>
    obtain ⟨k2, v2⟩ := p
    by_cases hk : k = k2
    · simp [lookup, hk]
    · simp [lookup, hk, ih]

/-! ## The loop of `findStub` -/

theorem checkMode_eq {Output : Type} (rule : String) (expect : Fields) (holds : Bool)
    (out : Output) (cm : List closeMatch) :
    checkMode rule expect holds out cm =
      if expect.isSome && holds then .error out else .ok (cm ++ candidate rule expect) := by
  cases expect <;> cases holds <;> simp [checkMode, candidate]

theorem visit_eq {Output : Type} (L : Lib) (data : Fields) (s : storage Output)
    (cm : List closeMatch) :
    visit L data s cm = if hits L data s then .error s.Output else .ok (cm ++ candidates s) := by
  simp only [visit, hits, candidates, checkMode_eq]
  cases h1 : (s.Input.Equals.isSome && equals data s.Input.Equals) <;>
  cases h2 : (s.Input.Contains.isSome && contains s.Input.Contains data) <;>
  cases h3 : (s.Input.Matches.isSome && «matches» L s.Input.Matches data) <;>
  simp [h3, List.append_assoc]

theorem scan_eq {Output : Type} (L : Lib) (data : Fields) (stubs : List (storage Output))
    (cm : List closeMatch) :
    scan L data stubs cm =
      match stubs.find? (hits L data) with
      | some s => .error s.Output
      | none => .ok (cm ++ stubs.flatMap candidates) := by
  induction stubs generalizing cm with
  | nil => simp [scan]
  | cons s rest ih =>
    by_cases h : hits L data s = true
    · simp [scan, visit_eq, h]
    · simp [scan, visit_eq, h, ih, List.append_assoc]

theorem serviceEntry_of_methodEntry {Output : Type} {R : stubMapping Output}
    {service method : String} {stubs : List (storage Output)}
    (h : methodEntry R service method = some stubs) :
    ∃ inner, serviceEntry R service = some inner := by
  unfold methodEntry at h
  unfold serviceEntry
  cases hl : lookup service R with
  | none => simp [hl, lookup] at h
  | some inner => exact ⟨inner, rfl⟩

/-- The result of `findStub` once the list of the method is known. -/
theorem findStub_of_methodEntry {Output : Type} (L : Lib) {R : stubMapping Output}
    {stub : findStubPayload} {stubs : List (storage Output)}
    (h : methodEntry R stub.Service stub.Method = some stubs) :
    findStub L R stub =
      if stubs.length = 0 then .error (.emptyStubSet stub.Service stub.Method)
      else match stubs.find? (hits L stub.Data) with
        | some s => .ok s.Output
        | none => .error (.stubNotFound stub (stubs.flatMap candidates)) := by
  obtain ⟨inner, hs⟩ := serviceEntry_of_methodEntry h
  unfold findStub
  simp only [hs, h, scan_eq, List.nil_append]
  by_cases he : stubs.length = 0
  · simp [he]
  · simp only [he, if_false]
    cases stubs.find? (hits L stub.Data) <;> rfl

/-- Without a list for the method, `findStub` fails with one of the two first errors. -/
theorem findStub_of_no_methodEntry {Output : Type} (L : Lib) {R : stubMapping Output}
    {stub : findStubPayload} (h : methodEntry R stub.Service stub.Method = none) :
    findStub L R stub =
      match serviceEntry R stub.Service with
      | none => .error (.serviceNotFound stub.Service)
      | some _ => .error (.methodNotFound stub.Service stub.Method) := by
  unfold findStub
  cases serviceEntry R stub.Service <;> simp [h]

/-- C1: for the list registered under the service and method of the query,
`findStub` returns the output of the first stub of the list, in insertion
order, one of whose populated modes (a mapping that is not nil) holds on the
payload, and every output it returns is that one; so of two stubs that both
match, the one registered first answers.  It fails with the stub-not-found
error exactly when the list exists, is not empty and no stub of it has a
populated mode that holds. -/
theorem findStub_first_match {Output : Type} (L : Lib) (R : stubMapping Output)
    (stub : findStubPayload) :
    (∀ pre s post, methodEntry R stub.Service stub.Method = some (pre ++ s :: post) →
        (∀ t ∈ pre, hits L stub.Data t = false) → hits L stub.Data s = true →
        findStub L R stub = .ok s.Output)
    ∧ (∀ out, findStub L R stub = .ok out →
        ∃ pre s post, methodEntry R stub.Service stub.Method = some (pre ++ s :: post) ∧
          (∀ t ∈ pre, hits L stub.Data t = false) ∧ hits L stub.Data s = true ∧
          out = s.Output)
    ∧ (∀ pre s1 mid s2 post,
        methodEntry R stub.Service stub.Method = some (pre ++ s1 :: (mid ++ s2 :: post)) →
        (∀ t ∈ pre, hits L stub.Data t = false) → hits L stub.Data s1 = true →
        hits L stub.Data s2 = true → findStub L R stub = .ok s1.Output)
    ∧ ((∃ p cm, findStub L R stub = .error (.stubNotFound p cm)) ↔
        ∃ stubs, methodEntry R stub.Service stub.Method = some stubs ∧ stubs ≠ [] ∧
          ∀ s ∈ stubs, hits L stub.Data s = false) := by
  have first : ∀ pre s post, methodEntry R stub.Service stub.Method = some (pre ++ s :: post) →
      (∀ t ∈ pre, hits L stub.Data t = false) → hits L stub.Data s = true →
      findStub L R stub = .ok s.Output := by
    intro pre s post hm hpre hs
    have hfind : (pre ++ s :: post).find? (hits L stub.Data) = some s := by
      rw [List.find?_eq_some]
      exact ⟨hs, pre, post, rfl, fun a ha => by simp [hpre a ha]⟩
    rw [findStub_of_methodEntry L hm]
    simp [hfind]
  refine ⟨first, ?_, ?_, ?_⟩
  · intro out hout
    cases hm : methodEntry R stub.Service stub.Method with
    | none =>
      rw [findStub_of_no_methodEntry L hm] at hout
      cases hse : serviceEntry R stub.Service <;> simp [hse] at hout
    | some stubs =>
      rw [findStub_of_methodEntry L hm] at hout
      by_cases he : stubs.length = 0
      · simp [he] at hout
      · simp only [he, if_false] at hout
        cases hf : stubs.find? (hits L stub.Data) with
        | none => simp [hf] at hout
        | some s =>
          simp only [hf, Except.ok.injEq] at hout
          obtain ⟨hs, pre, post, hsplit, hpre⟩ := List.find?_eq_some.mp hf
          refine ⟨pre, s, post, by rw [hsplit], ?_, hs, hout.symm⟩
          intro t ht
          simpa using hpre t ht
  · intro pre s1 mid s2 post hm hpre h1 _
    exact first pre s1 (mid ++ s2 :: post) hm hpre h1
  · constructor
    · rintro ⟨p, cm, herr⟩
      cases hm : methodEntry R stub.Service stub.Method with
      | none =>
        rw [findStub_of_no_methodEntry L hm] at herr
        cases hse : serviceEntry R stub.Service <;> simp [hse] at herr
      | some stubs =>
        rw [findStub_of_methodEntry L hm] at herr
        by_cases he : stubs.length = 0
        · simp [he] at herr
        · simp only [he, if_false] at herr
          cases hf : stubs.find? (hits L stub.Data) with
          | some s => simp [hf] at herr
          | none =>
            refine ⟨stubs, rfl, fun e => he (by simp [e]), ?_⟩
            intro s hs
            simpa using List.find?_eq_none.mp hf s hs
    · rintro ⟨stubs, hm, he, hall⟩
      have hf : stubs.find? (hits L stub.Data) = none := by
        rw [List.find?_eq_none]
        intro s hs
        simp [hall s hs]
      exact ⟨stub, stubs.flatMap candidates, by rw [findStub_of_methodEntry L hm]; simp [he, hf]⟩

/-- Witness of C1: two stubs of `Svc`/`Get` both match the payload `a: 1`,
and the lookup returns the output of the one registered first. -/
theorem findStub_first_match_witness : findStub goLib repoTwo queryA = .ok "first" :=
  (findStub_first_match goLib repoTwo queryA).2.2.1 []
    { Input := stubFirst.Input, Output := "first" } []
    { Input := stubSecond.Input, Output := "second" } [] rfl (by simp) (by decide) (by decide)

/-! ## `reflect.DeepEqual` -/

theorem deepEqualEntries_iff (m1 m2 : List (String × Value)) :
    deepEqualEntries m1 m2 = true ↔
      ∀ kv ∈ m1, ∃ v2, lookup kv.1 m2 = some v2 ∧ deepEqual kv.2 v2 = true := by
  induction m1 with
  | nil => simp [deepEqualEntries]
  | cons p rest ih =>
    obtain ⟨k, v⟩ := p
    cases hl : lookup k m2 with
    | none => simp [deepEqualEntries, hl]
    | some v2 => simp [deepEqualEntries, hl, ih]

theorem lookup_of_keysDistinct {α : Type} {l : List (String × α)} (hd : keysDistinct l = true)
    {k : String} {v : α} (h : (k, v) ∈ l) : lookup k l = some v := by
  induction l with
  | nil => simp at h
  | cons p rest ih =>
    obtain ⟨k2, v2⟩ := p
    simp only [keysDistinct, Bool.and_eq_true, Option.isNone_iff_eq_none] at hd
    rcases List.mem_cons.mp h with heq | hmem
    · cases heq
      simp [lookup]
    · have hne : k ≠ k2 := by
        intro e
        subst e
        have := ih hd.2 hmem
        rw [hd.1] at this
        cases this
      simp [lookup, hne, ih hd.2 hmem]

theorem keysDistinct_iff_nodup {α : Type} (l : List (String × α)) :
    keysDistinct l = true ↔ (l.map Prod.fst).Nodup := by
  induction l with
  | nil => simp [keysDistinct]
  | cons p rest ih =>
    obtain ⟨k, v⟩ := p
    simp only [keysDistinct, Bool.and_eq_true, Option.isNone_iff_eq_none, lookup_eq_none_iff,
      ih, List.map_cons, List.nodup_cons]

theorem float32Eq_self {bits : Nat} (h : isNaN32 bits = false) : float32Eq bits bits = true := by
  simp [float32Eq, h]

theorem float64Eq_self {bits : Nat} (h : isNaN64 bits = false) : float64Eq bits bits = true := by
  simp [float64Eq, h]

mutual
/-- A value without NaN whose maps have distinct keys is deeply equal to a copy of itself. -/
theorem deepEqual_self : ∀ v : Value, noNaN v = true → distinctKeys v = true →
    deepEqual v v = true
  | .nil, _, _ => by simp [deepEqual]
  | .str _, _, _ => by simp [deepEqual]
  | .int _, _, _ => by simp [deepEqual]
  | .int8 _, _, _ => by simp [deepEqual]
  | .int16 _, _, _ => by simp [deepEqual]
  | .int32 _, _, _ => by simp [deepEqual]
  | .int64 _, _, _ => by simp [deepEqual]
  | .float32 bits, hn, _ => by
    simp only [noNaN, Bool.not_eq_true'] at hn
    simp [deepEqual, float32Eq_self hn]
  | .float64 bits, hn, _ => by
    simp only [noNaN, Bool.not_eq_true'] at hn
    simp [deepEqual, float64Eq_self hn]
  | .bool _, _, _ => by simp [deepEqual]
  | .map none, _, _ => by simp [deepEqual]
  | .map (some m), hn, hd => by
    simp only [noNaN] at hn
    simp only [distinctKeys, Bool.and_eq_true] at hd
    simp only [deepEqual, beq_self_eq_true, Bool.true_and, deepEqualEntries_iff]
    intro kv hkv
    exact ⟨kv.2, lookup_of_keysDistinct hd.1 hkv, deepEqual_self_entries m hn hd.2 kv hkv⟩
  | .slice none, _, _ => by simp [deepEqual]
  | .slice (some xs), hn, hd => by
    simp only [noNaN] at hn
    simp only [distinctKeys] at hd
    simp only [deepEqual]
    exact deepEqual_self_elems xs hn hd
theorem deepEqual_self_entries : ∀ m : List (String × Value), noNaNEntries m = true →
    distinctKeysEntries m = true → ∀ kv ∈ m, deepEqual kv.2 kv.2 = true
  | [], _, _ => by simp
  | (k, v) :: rest, hn, hd => by
    simp only [noNaNEntries, Bool.and_eq_true] at hn
    simp only [distinctKeysEntries, Bool.and_eq_true] at hd
    intro kv hkv
    rcases List.mem_cons.mp hkv with heq | hmem
    · subst heq
      exact deepEqual_self v hn.1 hd.1
    · exact deepEqual_self_entries rest hn.2 hd.2 kv hmem
theorem deepEqual_self_elems : ∀ xs : List Value, noNaNElems xs = true →
    distinctKeysElems xs = true → deepEqualElems xs xs = true
  | [], _, _ => by simp [deepEqualElems]
  | v :: rest, hn, hd => by
    simp only [noNaNElems, Bool.and_eq_true] at hn
    simp only [distinctKeysElems, Bool.and_eq_true] at hd
    simp only [deepEqualElems, Bool.and_eq_true]
    exact ⟨deepEqual_self v hn.1 hd.1, deepEqual_self_elems rest hn.2 hd.2⟩
end

/-! ## Round trip -/

/-- C2, as amended: from the empty repository, registering a stub whose equals
mapping `E` is not nil and holds no floating-point NaN (its maps having
distinct keys, as every Go map has), then looking up the same service and
method with a payload equal to `E`, returns the output of the stub, and
`storeStub` returned no error. -/
theorem storeStub_findStub_roundtrip {Output : Type} (L : Lib) (service method : String)
    (e : List (String × Value)) (c m : Fields) (O : Output)
    (hn : noNaN (.map (some e)) = true) (hd : distinctKeys (.map (some e)) = true) :
    (storeStub []
        { Service := service, Method := method,
          Input := { Equals := some e, Contains := c, Matches := m }, Output := O }).2 = none
    ∧ findStub L
        (storeStub []
          { Service := service, Method := method,
            Input := { Equals := some e, Contains := c, Matches := m }, Output := O }).1
        { Service := service, Method := method, Data := some e } = .ok O := by
  refine ⟨rfl, ?_⟩
  have hm : methodEntry
      (storeStub []
        { Service := service, Method := method,
          Input := { Equals := some e, Contains := c, Matches := m }, Output := O }).1
      service method
      = some [({ Input := { Equals := some e, Contains := c, Matches := m },
                 Output := O } : storage Output)] := by
    simp [storeStub, methodEntry, lookup, insert]
  have hh : hits L (some e)
      ({ Input := { Equals := some e, Contains := c, Matches := m },
         Output := O } : storage Output) = true := by
    simp [hits, equals, deepEqual_self _ hn hd]
  rw [findStub_of_methodEntry L hm]
  simp [hh]

/-- Witness of C2 as amended: the equals mapping `a: 1` and the output `x: y`. -/
theorem storeStub_findStub_roundtrip_witness :
    findStub goLib
      (storeStub []
        { Service := "svc", Method := "method",
          Input := { Equals := some [("a", .int 1)], Contains := none, Matches := none },
          Output := (some [("x", Value.str "y")] : Fields) }).1
      { Service := "svc", Method := "method", Data := some [("a", .int 1)] }
      = .ok (some [("x", Value.str "y")]) :=
  (storeStub_findStub_roundtrip goLib "svc" "method" [("a", .int 1)] none none
    (some [("x", Value.str "y")]) (by decide) (by decide)).2

/-- Counterexample to C2: the equals mapping `a: NaN` is not nil, yet looking
up a payload built equal to it, entry by entry, fails with the stub-not-found
error: `reflect.DeepEqual` compares floats with `==`, and a NaN equals nothing. -/
theorem roundtrip_fails_on_NaN :
    findStub goLib (storeStub [] stubNaN).1
      { Service := "Svc", Method := "Get", Data := some [("a", .float64 nan64)] }
      = .error (.stubNotFound
          { Service := "Svc", Method := "Get", Data := some [("a", .float64 nan64)] }
          [{ rule := "equals", expect := some [("a", .float64 nan64)] }]) := by
  rfl

/-! ## Equals -/

theorem deepEqual_typeName : ∀ v w : Value, deepEqual v w = true → typeName v = typeName w := by
  intro v w h
  rcases v with _ | _ | _ | _ | _ | _ | _ | _ | _ | _ | (_ | _) | (_ | _) <;>
    rcases w with _ | _ | _ | _ | _ | _ | _ | _ | _ | _ | (_ | _) | (_ | _) <;>
    first
    | rfl
    | (simp [deepEqual] at h)

/-- Two maps with distinct keys are deeply equal exactly when both are nil, or
neither is and they have the same entries. -/
theorem deepEqual_map_iff (d e : List (String × Value)) (hd : keysDistinct d = true)
    (he : keysDistinct e = true) :
    deepEqual (.map (some d)) (.map (some e)) = true ↔ sameEntries d e := by
  have hnd := (keysDistinct_iff_nodup d).mp hd
  have hne := (keysDistinct_iff_nodup e).mp he
  simp only [deepEqual, Bool.and_eq_true, beq_iff_eq, deepEqualEntries_iff, sameEntries]
  constructor
  · rintro ⟨hlen, hall⟩
    have hsub : d.map Prod.fst ⊆ e.map Prod.fst := by
      intro k hk
      obtain ⟨kv, hkv, rfl⟩ := List.mem_map.mp hk
      obtain ⟨v2, hl, _⟩ := hall kv hkv
      exact List.mem_map.mpr ⟨(kv.1, v2), mem_of_lookup_eq_some hl, rfl⟩
    have hperm : (d.map Prod.fst).Perm (e.map Prod.fst) :=
      (List.subperm_of_subset hnd hsub).perm_of_length_le (by simp [hlen])
    refine ⟨fun k => hperm.mem_iff, ?_⟩
    intro k v hl
    exact hall (k, v) (mem_of_lookup_eq_some hl)
  · rintro ⟨hkeys, hvals⟩
    have hperm : (d.map Prod.fst).Perm (e.map Prod.fst) :=
      (List.perm_ext_iff_of_nodup hnd hne).mpr hkeys
    refine ⟨by simpa using hperm.length_eq, ?_⟩
    intro kv hkv
    exact hvals kv.1 kv.2 (lookup_of_keysDistinct hd hkv)

theorem equals_iff (D : Fields) (e : List (String × Value))
    (hd : keysDistinct (entries D) = true) (he : keysDistinct e = true) :
    equals D (some e) = true ↔ D ≠ none ∧ sameEntries (entries D) e := by
  cases D with
  | none => simp [equals, deepEqual]
  | some d => simpa [equals, entries] using deepEqual_map_iff d e hd he

theorem sameEntries_ne_nil {d e : List (String × Value)} (h : sameEntries d e) (hne : e ≠ []) :
    d ≠ [] := by
  intro hd
  subst hd
  cases e with
  | nil => exact hne rfl
  | cons p rest => simpa using (h.1 p.1).mpr (by simp)

/-! ## Contains -/

theorem containsLoop_iff (actual : Fields) (l : List (String × Value)) :
    containsLoop actual l = true ↔
      ∀ kv ∈ l, ∃ v, lookup kv.1 (entries actual) = some v ∧ deepEqual kv.2 v = true := by
  induction l with
  | nil => simp [containsLoop]
  | cons p rest ih =>
    obtain ⟨k, v⟩ := p
    cases hl : lookup k (entries actual) with
    | none => simp [containsLoop, hl]
    | some w =>
      cases hq : deepEqual v w <;> simp [containsLoop, hl, hq, ih]

/-- C4: `contains(expect, actual)` is true exactly when every entry of `expect`
has its key present in `actual` with a deeply-equal value.  So it stays true
for every payload that agrees with `actual` on the keys of `expect`, whatever
other keys it has, and it is false as soon as a key of `expect` is absent from
`actual` or maps there to a value that is not deeply equal. -/
theorem contains_iff (expect actual : Fields) :
    (contains expect actual = true ↔
        ∀ kv ∈ entries expect,
          ∃ v, lookup kv.1 (entries actual) = some v ∧ deepEqual kv.2 v = true)
    ∧ (∀ actual2 : Fields,
        (∀ kv ∈ entries expect,
          lookup kv.1 (entries actual2) = lookup kv.1 (entries actual)) →
        contains expect actual = true → contains expect actual2 = true)
    ∧ (∀ kv ∈ entries expect, lookup kv.1 (entries actual) = none →
        contains expect actual = false)
    ∧ (∀ kv ∈ entries expect, ∀ v, lookup kv.1 (entries actual) = some v →
        deepEqual kv.2 v = false → contains expect actual = false) := by
  refine ⟨containsLoop_iff actual _, ?_, ?_, ?_⟩
  · intro actual2 hagree h
    unfold contains at h ⊢
    rw [containsLoop_iff] at h ⊢
    intro kv hkv
    rw [hagree kv hkv]
    exact h kv hkv
  · intro kv hkv hnone
    cases hc : contains expect actual with
    | false => rfl
    | true =>
      obtain ⟨v, hv, _⟩ := (containsLoop_iff actual _).mp hc kv hkv
      rw [hnone] at hv
      cases hv
  · intro kv hkv v hsome hneq
    cases hc : contains expect actual with
    | false => rfl
    | true =>
      obtain ⟨w, hw, hq⟩ := (containsLoop_iff actual _).mp hc kv hkv
      rw [hsome] at hw
      cases hw
      rw [hneq] at hq
      cases hq

/-- Witness of C4: the expectation `a: 1` is contained in the payload
`a: 1, b: "x"`, and still is once the key `c` is added to the payload. -/
theorem contains_iff_witness :
    contains (some [("a", .int 1)]) (some [("c", .bool true), ("a", .int 1), ("b", .str "x")])
      = true :=
  (contains_iff (some [("a", .int 1)]) (some [("a", .int 1), ("b", .str "x")])).2.1
    (some [("c", .bool true), ("a", .int 1), ("b", .str "x")])
    (by simp [entries, lookup]) (by decide)

/-! ## Absent modes -/

theorem candidate_rule (rule : String) (expect : Fields) :
    ∀ c ∈ candidate rule expect, c.rule = rule := by
  intro c hc
  cases expect <;> simp [candidate] at hc
  rw [hc]

/-- C5, as amended: a mode whose mapping is nil (unset) is absent: for it the
loop of `findStub` records no candidate and returns nothing, whatever the
predicate would answer, so a stub with a nil contains mapping gets no
"contains" candidate and is returned only on account of another mode; the same
holds for a nil equals mapping and a nil matches mapping.  A mapping that is
present but empty is not absent: an empty contains or matches mapping holds on
every payload and the output of the stub is returned; an empty equals mapping
holds on the empty payload, and otherwise its "equals" candidate is recorded. -/
theorem nil_mode_absent {Output : Type} (L : Lib) (data : Fields) (s : storage Output)
    (cm : List closeMatch) :
    (∀ rule holds, checkMode rule none holds s.Output cm = .ok cm)
    ∧ (∀ cm2, visit L data s cm = .ok cm2 → cm2 = cm ++ candidates s)
    ∧ (∀ out, visit L data s cm = .error out → out = s.Output ∧ hits L data s = true)
    ∧ (s.Input.Equals = none →
        (∀ c ∈ candidates s, c.rule ≠ "equals") ∧
        (hits L data s = true →
          (s.Input.Contains.isSome ∧ contains s.Input.Contains data = true) ∨
          (s.Input.Matches.isSome ∧ «matches» L s.Input.Matches data = true)))
    ∧ (s.Input.Contains = none →
        (∀ c ∈ candidates s, c.rule ≠ "contains") ∧
        (hits L data s = true →
          (s.Input.Equals.isSome ∧ equals data s.Input.Equals = true) ∨
          (s.Input.Matches.isSome ∧ «matches» L s.Input.Matches data = true)))
    ∧ (s.Input.Matches = none →
        (∀ c ∈ candidates s, c.rule ≠ "matches") ∧
        (hits L data s = true →
          (s.Input.Equals.isSome ∧ equals data s.Input.Equals = true) ∨
          (s.Input.Contains.isSome ∧ contains s.Input.Contains data = true)))
    ∧ (s.Input.Contains = some [] → visit L data s cm = .error s.Output)
    ∧ (s.Input.Matches = some [] → visit L data s cm = .error s.Output)
    ∧ (s.Input.Equals = some [] → data = some [] → visit L data s cm = .error s.Output)
    ∧ (s.Input.Equals = some [] → ∀ cm2, visit L data s cm = .ok cm2 →
        { rule := "equals", expect := some [] } ∈ cm2) := by
  refine ⟨fun _ _ => rfl, ?_, ?_, ?_, ?_, ?_, ?_, ?_, ?_, ?_⟩
  · intro cm2 h
    rw [visit_eq] at h
    cases hh : hits L data s <;> simp [hh] at h
    exact h.symm
  · intro out h
    rw [visit_eq] at h
    cases hh : hits L data s <;> simp [hh] at h
    exact ⟨h.symm, rfl⟩
  · intro hnil
    constructor
    · intro c hc
      simp only [candidates, hnil, candidate, Option.isSome_none, Bool.false_eq_true, if_false,
        List.nil_append, List.mem_append] at hc
      rcases hc with hc | hc <;> rw [candidate_rule _ _ c hc] <;> decide
    · intro hh
      simpa [hits, hnil] using hh
  · intro hnil
    constructor
    · intro c hc
      simp only [candidates, hnil, candidate, Option.isSome_none, Bool.false_eq_true, if_false,
        List.append_nil, List.mem_append] at hc
      rcases hc with hc | hc <;> rw [candidate_rule _ _ c hc] <;> decide
    · intro hh
      simpa [hits, hnil] using hh
  · intro hnil
    constructor
    · intro c hc
      simp only [candidates, hnil, candidate, Option.isSome_none, Bool.false_eq_true, if_false,
        List.append_nil, List.mem_append] at hc
      rcases hc with hc | hc <;> rw [candidate_rule _ _ c hc] <;> decide
    · intro hh
      simpa [hits, hnil] using hh
  · intro he
    have hh : hits L data s = true := by simp [hits, he, contains, entries, containsLoop]
    rw [visit_eq, hh]
    rfl
  · intro he
    have hh : hits L data s = true := by simp [hits, he, «matches», entries, matchesLoop]
    rw [visit_eq, hh]
    rfl
  · intro he hd
    have hq : equals (some []) (some []) = true := rfl
    have hh : hits L data s = true := by
      simp [hits, he, hd, hq]
    rw [visit_eq, hh]
    rfl
  · intro he cm2 h
    rw [visit_eq] at h
    cases hh : hits L data s <;> simp [hh] at h
    rw [← h]
    simp [candidates, candidate, he]

/-- Witness of C5 as amended: the stub whose contains mapping is present and
empty is returned by the loop for the payload `a: "x"`. -/
theorem nil_mode_absent_witness :
    visit goLib (some [("a", .str "x")])
      ({ Input := stubEmptyContains.Input, Output := "any" } : storage String) [] = .error "any" :=
  (nil_mode_absent goLib (some [("a", .str "x")])
    ({ Input := stubEmptyContains.Input, Output := "any" } : storage String) []).2.2.2.2.2.2.1 rfl

/-- Counterexample to C5: a contains mapping that is present and empty is
evaluated, and the lookup of the payload `a: "x"` returns the output of its
stub on account of it; an equals mapping that is present and empty is recorded
as the "equals" candidate of the stub-not-found error. -/
theorem empty_mode_not_absent :
    findStub goLib (storeStub [] stubEmptyContains).1 queryX = .ok "any"
    ∧ findStub goLib (storeStub [] stubEmptyEquals).1 queryX
        = .error (.stubNotFound queryX [{ rule := "equals", expect := some [] }]) :=
  ⟨rfl, rfl⟩

/-! ## Matches -/

theorem matchesLoop_iff (L : Lib) (actual : Fields) (l : List (String × Value)) :
    matchesLoop L actual l = true ↔
      ∀ kv ∈ l, (tryConvertValue L kv.2).2 = none
        ∧ (tryConvertValue L (index actual kv.1)).2 = none
        ∧ L.regexpMatch (tryConvertValue L kv.2).1
            (tryConvertValue L (index actual kv.1)).1 = some true := by
  induction l with
  | nil => simp [matchesLoop]
  | cons p rest ih =>
    obtain ⟨k, v⟩ := p
    simp only [matchesLoop, List.mem_cons, forall_eq_or_imp]
    cases h1 : (tryConvertValue L v).2 with
    | some e1 => simp
    | none =>
      cases h2 : (tryConvertValue L (index actual k)).2 with
      | some e2 => simp
      | none =>
        cases h3 : L.regexpMatch (tryConvertValue L v).1 (tryConvertValue L (index actual k)).1 with
        | none => simp
        | some b => cases b <;> simp [ih]

theorem index_of_absent (actual : Fields) (k : String)
    (h : lookup k (entries actual) = none) : index actual k = Value.nil := by
  simp [index, h]

/-- C6: `matches(expect, actual)` is true exactly when, for every entry of
`expect`, `tryConvertValue` succeeds on the pattern and on the value of
`actual` under the same key, and `regexp.Match` compiles the pattern and finds
it somewhere in that value.  It is false as soon as one entry has a failed
conversion (so when its key is absent from `actual`), a pattern that does not
compile or a pattern that is not found.  With a `regexp.Match` that finds
`^J.*` in `John` and not in `Amy`, the expectation `name: ^J.*` matches the
payload `name: John` and not the payload `name: Amy`. -/
theorem matches_iff (L : Lib) (expect actual : Fields) :
    («matches» L expect actual = true ↔
        ∀ kv ∈ entries expect, (tryConvertValue L kv.2).2 = none
          ∧ (tryConvertValue L (index actual kv.1)).2 = none
          ∧ L.regexpMatch (tryConvertValue L kv.2).1
              (tryConvertValue L (index actual kv.1)).1 = some true)
    ∧ (∀ kv ∈ entries expect, (tryConvertValue L kv.2).2 ≠ none →
        «matches» L expect actual = false)
    ∧ (∀ kv ∈ entries expect, (tryConvertValue L (index actual kv.1)).2 ≠ none →
        «matches» L expect actual = false)
    ∧ (∀ kv ∈ entries expect, lookup kv.1 (entries actual) = none →
        «matches» L expect actual = false)
    ∧ (∀ kv ∈ entries expect,
        L.regexpMatch (tryConvertValue L kv.2).1 (tryConvertValue L (index actual kv.1)).1 = none →
        «matches» L expect actual = false)
    ∧ (∀ kv ∈ entries expect,
        L.regexpMatch (tryConvertValue L kv.2).1 (tryConvertValue L (index actual kv.1)).1
          = some false →
        «matches» L expect actual = false)
    ∧ (L.regexpMatch "^J.*" "John" = some true → L.regexpMatch "^J.*" "Amy" = some false →
        «matches» L (some [("name", .str "^J.*")]) (some [("name", .str "John")]) = true
        ∧ «matches» L (some [("name", .str "^J.*")]) (some [("name", .str "Amy")]) = false) := by
  have hiff := matchesLoop_iff L actual (entries expect)
  have hfalse : ∀ kv ∈ entries expect,
      ¬ ((tryConvertValue L kv.2).2 = none
        ∧ (tryConvertValue L (index actual kv.1)).2 = none
        ∧ L.regexpMatch (tryConvertValue L kv.2).1
            (tryConvertValue L (index actual kv.1)).1 = some true) →
      «matches» L expect actual = false := by
    intro kv hkv hbad
    cases hc : «matches» L expect actual with
    | false => rfl
    | true => exact absurd (hiff.mp hc kv hkv) hbad
  refine ⟨hiff, ?_, ?_, ?_, ?_, ?_, ?_⟩
  · exact fun kv hkv h => hfalse kv hkv (fun hc => h hc.1)
  · exact fun kv hkv h => hfalse kv hkv (fun hc => h hc.2.1)
  · intro kv hkv h
    refine hfalse kv hkv (fun hc => ?_)
    have := hc.2.1
    rw [index_of_absent actual kv.1 h] at this
    simp [tryConvertValue] at this
  · intro kv hkv h
    refine hfalse kv hkv (fun hc => ?_)
    rw [h] at hc
    exact absurd hc.2.2 (by simp)
  · intro kv hkv h
    refine hfalse kv hkv (fun hc => ?_)
    rw [h] at hc
    exact absurd hc.2.2 (by simp)
  · intro hJohn hAmy
    constructor
    · simp [«matches», entries, matchesLoop, tryConvertValue, index, lookup, hJohn]
    · simp [«matches», entries, matchesLoop, tryConvertValue, index, lookup, hAmy]

/-- Witness of C6: on the fragment of the regular expressions `goLib` covers,
`^J.*` is found in `John` and not in `Amy`. -/
theorem matches_iff_witness :
    «matches» goLib (some [("name", .str "^J.*")]) (some [("name", .str "John")]) = true
    ∧ «matches» goLib (some [("name", .str "^J.*")]) (some [("name", .str "Amy")]) = false :=
  (matches_iff goLib none none).2.2.2.2.2.2 (by decide) (by decide)

/-! ## Structural misses -/

/-- C7: `findStub` fails with the service-not-found error when the service key
is absent from the repository; with the method-not-found error when the
service is present and the method key absent under it; with the
empty-stub-set error when the list of the method is present with no entry.
Each of these results is fixed by the repository and the two names alone: it
is the same for every library and every payload, carries no candidate, and is
never the stub-not-found error. -/
theorem findStub_structural_miss {Output : Type} (L : Lib) (R : stubMapping Output)
    (service method : String) (data : Fields) :
    (serviceEntry R service = none →
        findStub L R { Service := service, Method := method, Data := data }
          = .error (.serviceNotFound service))
    ∧ (serviceEntry R service ≠ none → methodEntry R service method = none →
        findStub L R { Service := service, Method := method, Data := data }
          = .error (.methodNotFound service method))
    ∧ (methodEntry R service method = some [] →
        findStub L R { Service := service, Method := method, Data := data }
          = .error (.emptyStubSet service method))
    ∧ ((serviceEntry R service = none ∨ methodEntry R service method = none
          ∨ methodEntry R service method = some []) →
        (∀ (L2 : Lib) (data2 : Fields),
          findStub L2 R { Service := service, Method := method, Data := data2 }
            = findStub L R { Service := service, Method := method, Data := data })
        ∧ ∀ p cm, findStub L R { Service := service, Method := method, Data := data }
            ≠ .error (.stubNotFound p cm)) := by
  have h1 : ∀ (L1 : Lib) (d : Fields), serviceEntry R service = none →
      findStub L1 R { Service := service, Method := method, Data := d }
        = .error (.serviceNotFound service) := by
    intro L1 d h
    simp [findStub, h]
  have h2 : ∀ (L1 : Lib) (d : Fields), serviceEntry R service ≠ none →
      methodEntry R service method = none →
      findStub L1 R { Service := service, Method := method, Data := d }
        = .error (.methodNotFound service method) := by
    intro L1 d hs hm
    rw [findStub_of_no_methodEntry L1 hm]
    cases hse : serviceEntry R service with
    | none => exact absurd hse hs
    | some inner => rfl
  have h3 : ∀ (L1 : Lib) (d : Fields), methodEntry R service method = some [] →
      findStub L1 R { Service := service, Method := method, Data := d }
        = .error (.emptyStubSet service method) := by
    intro L1 d hm
    rw [@findStub_of_methodEntry Output L1 R { Service := service, Method := method, Data := d } [] hm]
    simp
  refine ⟨h1 L data, h2 L data, h3 L data, ?_⟩
  intro hcase
  by_cases hs : serviceEntry R service = none
  · refine ⟨fun L2 d2 => by rw [h1 L2 d2 hs, h1 L data hs], fun p cm => ?_⟩
    rw [h1 L data hs]
    simp
  · rcases hcase with h | h | h
    · exact absurd h hs
    · refine ⟨fun L2 d2 => by rw [h2 L2 d2 hs h, h2 L data hs h], fun p cm => ?_⟩
      rw [h2 L data hs h]
      simp
    · refine ⟨fun L2 d2 => by rw [h3 L2 d2 h, h3 L data h], fun p cm => ?_⟩
      rw [h3 L data h]
      simp

/-- Witness of C7: with only the method `Create` registered for `Svc`, the
lookup of `Svc`/`Get` fails with the method-not-found error. -/
theorem findStub_structural_miss_witness :
    findStub goLib (storeStub [] stubCreate).1
      { Service := "Svc", Method := "Get", Data := some [("a", .int 1)] }
      = .error (.methodNotFound "Svc" "Get") :=
  (findStub_structural_miss goLib (storeStub [] stubCreate).1 "Svc" "Get"
    (some [("a", .int 1)])).2.1 (by simp [serviceEntry, storeStub, lookup, insert, stubCreate]) rfl

/-! ## The value comparator -/

/-- C8, as amended: `tryConvertValue` succeeds on every signed integer of
native width, of 32 bits and of 64 bits, returning its decimal rendering, on
every string, returned unchanged, and on every boolean, rendered `true` or
`false`. -/
theorem tryConvertValue_scalars (L : Lib) :
    (∀ n, tryConvertValue L (.int n) = (formatInt n, none))
    ∧ (∀ n, tryConvertValue L (.int32 n) = (formatInt n, none))
    ∧ (∀ n, tryConvertValue L (.int64 n) = (formatInt n, none))
    ∧ (∀ s, tryConvertValue L (.str s) = (s, none))
    ∧ tryConvertValue L (.bool true) = ("true", none)
    ∧ tryConvertValue L (.bool false) = ("false", none)
    ∧ formatInt 0 = "0" ∧ formatInt 42 = "42" ∧ formatInt (-17) = "-17" :=
  ⟨fun _ => rfl, fun _ => rfl, fun _ => rfl, fun _ => rfl, rfl, rfl, by decide, by decide,
    by decide⟩

/-- Counterexample to C8: on the 8-bit integer 5 and on the 16-bit integer 5
`tryConvertValue` fails with the conversion error: it has no case for these
two widths. -/
theorem tryConvertValue_int8_int16_fail :
    tryConvertValue goLib (.int8 5) = ("", some conversionError)
    ∧ tryConvertValue goLib (.int16 5) = ("", some conversionError) :=
  ⟨rfl, rfl⟩

/-- C9: `tryConvertValue` returns the empty string and the conversion error on
the nil interface, on every nested mapping and on every slice; on every value
it returns either a string without error or the empty string with the
conversion error.  So `matches(expect, actual)` is false whenever an entry of
`expect` has such a value, or its key maps to such a value in `actual`. -/
theorem tryConvertValue_unsupported (L : Lib) :
    tryConvertValue L .nil = ("", some conversionError)
    ∧ (∀ m, tryConvertValue L (.map m) = ("", some conversionError))
    ∧ (∀ xs, tryConvertValue L (.slice xs) = ("", some conversionError))
    ∧ (∀ v, (tryConvertValue L v).2 = none ∨ tryConvertValue L v = ("", some conversionError))
    ∧ (∀ expect actual : Fields, ∀ kv ∈ entries expect,
        unsupported kv.2 = true ∨ unsupported (index actual kv.1) = true →
        «matches» L expect actual = false) := by
  have hun : ∀ v, unsupported v = true → (tryConvertValue L v).2 ≠ none := by
    intro v hv
    cases v <;> simp [unsupported] at hv <;> simp [tryConvertValue]
  refine ⟨rfl, fun _ => rfl, fun _ => rfl, ?_, ?_⟩
  · intro v
    cases v <;> simp [tryConvertValue]
  · intro expect actual kv hkv hbad
    cases hc : «matches» L expect actual with
    | false => rfl
    | true =>
      have h := (matchesLoop_iff L actual (entries expect)).mp hc kv hkv
      rcases hbad with hb | hb
      · exact absurd h.1 (hun _ hb)
      · exact absurd h.2.1 (hun _ hb)

/-- Witness of C9: the key `a` of the expectation maps to a nested mapping in
the payload, and `matches` answers false. -/
theorem tryConvertValue_unsupported_witness :
    «matches» goLib (some [("a", .str "x")]) (some [("a", .map (some [("b", .str "x")]))])
      = false :=
  (tryConvertValue_unsupported goLib).2.2.2.2 (some [("a", .str "x")])
    (some [("a", .map (some [("b", .str "x")]))]) ("a", .str "x") (by simp [entries])
    (Or.inr rfl)

/-! ## Registration -/

theorem methodEntry_storeStub_self {Output : Type} (R : stubMapping Output) (s : Stub Output) :
    methodEntry (storeStub R s).1 s.Service s.Method =
      some ((methodEntry R s.Service s.Method).getD []
        ++ [{ Input := s.Input, Output := s.Output }]) := by
  unfold methodEntry storeStub
  by_cases h : ((lookup s.Service R).getD none).isNone = true
  · have hn : (lookup s.Service R).getD none = none := by simpa using h
    simp [h, hn, lookup_insert_self, lookup]
  · simp [h, lookup_insert_self]

theorem methodEntry_storeStub_other {Output : Type} (R : stubMapping Output) (s : Stub Output)
    (service method : String) (h : ¬ (service = s.Service ∧ method = s.Method)) :
    methodEntry (storeStub R s).1 service method = methodEntry R service method := by
  unfold methodEntry storeStub
  by_cases hs : service = s.Service
  · subst hs
    have hmne : method ≠ s.Method := fun e => h ⟨rfl, e⟩
    by_cases hnil : ((lookup s.Service R).getD none).isNone = true
    · have hn : (lookup s.Service R).getD none = none := by simpa using hnil
      simp [hnil, hn, lookup_insert_self, lookup_insert_other _ _ _ _ hmne, lookup]
    · simp [hnil, lookup_insert_self, lookup_insert_other _ _ _ _ hmne]
  · by_cases hnil : ((lookup s.Service R).getD none).isNone = true
    · simp [hnil, lookup_insert_other _ _ _ _ hs]
    · simp [hnil, lookup_insert_other _ _ _ _ hs]

/-- C10: `storeStub` returns no error, whatever the repository and the stub.
In the new state the list of the service and method of the stub is the old
list (empty when there was none) followed by one entry with the input and the
output of the stub, and the list of every other service and method is
unchanged.  Registering the same stub twice adds two entries. -/
theorem storeStub_appends {Output : Type} (R : stubMapping Output) (s : Stub Output) :
    (storeStub R s).2 = none
    ∧ methodEntry (storeStub R s).1 s.Service s.Method =
        some ((methodEntry R s.Service s.Method).getD []
          ++ [{ Input := s.Input, Output := s.Output }])
    ∧ (∀ service method, ¬ (service = s.Service ∧ method = s.Method) →
        methodEntry (storeStub R s).1 service method = methodEntry R service method)
    ∧ methodEntry (storeStub (storeStub R s).1 s).1 s.Service s.Method =
        some ((methodEntry R s.Service s.Method).getD []
          ++ [{ Input := s.Input, Output := s.Output }, { Input := s.Input, Output := s.Output }])
    ∧ (storeStub (storeStub R s).1 s).2 = none := by
  refine ⟨rfl, methodEntry_storeStub_self R s, methodEntry_storeStub_other R s, ?_, rfl⟩
  rw [methodEntry_storeStub_self, methodEntry_storeStub_self]
  simp

/-- Witness of C10: registering a stub of `Svc`/`Create` leaves the list of
`Svc`/`Get` as it was. -/
theorem storeStub_appends_witness :
    methodEntry (storeStub repoTwo stubCreate).1 "Svc" "Get" = methodEntry repoTwo "Svc" "Get" :=
  (storeStub_appends repoTwo stubCreate).2.2.1 "Svc" "Get" (by decide)

/-! ## Clearing and reading -/

/-- C11: `clearStorage` leaves the empty repository whatever the state was, so
after any sequence of calls of `storeStub` (two identical stubs among them)
followed by `clearStorage`, `allStub` returns a mapping without service and
every lookup fails with the service-not-found error. -/
theorem clearStorage_empties {Output : Type} (L : Lib) (R : stubMapping Output) :
    clearStorage R = []
    ∧ allStub (clearStorage R) = []
    ∧ (∀ stubs : List (Stub Output), allStub (clearStorage (storeAll [] stubs)) = [])
    ∧ (∀ s : Stub Output, allStub (clearStorage (storeAll [] [s, s])) = [])
    ∧ (∀ service, serviceEntry (clearStorage R) service = none)
    ∧ (∀ stub : findStubPayload,
        findStub L (clearStorage R) stub = .error (.serviceNotFound stub.Service))
    ∧ (∀ (stubs : List (Stub Output)) (stub : findStubPayload),
        findStub L (clearStorage (storeAll [] stubs)) stub
          = .error (.serviceNotFound stub.Service)) :=
  ⟨rfl, rfl, fun _ => rfl, fun _ => rfl, fun _ => rfl, fun _ => rfl, fun _ _ => rfl⟩

/-! ## Reachable states -/

theorem insert_ne_nil {α : Type} (k : String) (v : α) (l : List (String × α)) :
    insert k v l ≠ [] := by
  cases l with
  | nil => simp [insert]
  | cons p rest =>
    obtain ⟨k2, v2⟩ := p
    by_cases h : k = k2 <;> simp [insert, h]

theorem populated_storeStub {Output : Type} (R : stubMapping Output) (s : Stub Output)
    (h : populated R) : populated (storeStub R s).1 := by
  intro service inner hl
  by_cases hs : service = s.Service
  · subst hs
    simp only [storeStub, lookup_insert_self, Option.some.injEq] at hl
    subst hl
    refine ⟨_, rfl, insert_ne_nil _ _ _, ?_⟩
    intro method stubs hm
    by_cases hmeth : method = s.Method
    · subst hmeth
      rw [lookup_insert_self] at hm
      cases hm
      simp
    · rw [lookup_insert_other _ _ _ _ hmeth] at hm
      by_cases hnil : ((lookup s.Service R).getD none).isNone = true
      · simp [hnil, lookup_insert_self, lookup] at hm
      · simp only [hnil, Bool.false_eq_true, if_false] at hm
        cases hold : lookup s.Service R with
        | none => simp [hold] at hnil
        | some inner0 =>
          obtain ⟨methods, hin, _, hall⟩ := h s.Service inner0 hold
          subst hin
          simp only [hold, Option.getD_some] at hm
          exact hall method stubs hm
  · have hl2 : lookup service R = some inner := by
      simp only [storeStub] at hl
      rw [lookup_insert_other _ _ _ _ hs] at hl
      by_cases hnil : ((lookup s.Service R).getD none).isNone = true
      · simpa [hnil, lookup_insert_other _ _ _ _ hs] using hl
      · simpa [hnil] using hl
    exact h service inner hl2

theorem populated_of_reachable {Output : Type} {R : stubMapping Output} (h : Reachable R) :
    populated R := by
  induction h with
  | empty => intro service inner hl; simp [lookup] at hl
  | store R s _ ih => exact populated_storeStub R s ih
  | clear R _ _ => intro service inner hl; simp [clearStorage, lookup] at hl

/-- C18: in every state reached from the empty repository by calls of
`storeStub` and `clearStorage`, every service present has at least one method
and every method present has a list of at least one stub; so no lookup fails
with the empty-stub-set error there. -/
theorem reachable_never_empty_stub_set {Output : Type} (L : Lib) (R : stubMapping Output)
    (h : Reachable R) :
    populated R
    ∧ (∀ service method stubs, methodEntry R service method = some stubs → stubs ≠ [])
    ∧ (∀ (stub : findStubPayload) service method,
        findStub L R stub ≠ .error (.emptyStubSet service method)) := by
  have hp := populated_of_reachable h
  have hne : ∀ service method stubs, methodEntry R service method = some stubs →
      stubs ≠ [] := by
    intro service method stubs hm
    unfold methodEntry at hm
    cases hl : lookup service R with
    | none => simp [hl, lookup] at hm
    | some inner =>
      obtain ⟨methods, hin, _, hall⟩ := hp service inner hl
      subst hin
      simp only [hl, Option.getD_some] at hm
      exact hall method stubs hm
  refine ⟨hp, hne, ?_⟩
  intro stub service method herr
  cases hm : methodEntry R stub.Service stub.Method with
  | none =>
    rw [findStub_of_no_methodEntry L hm] at herr
    cases hse : serviceEntry R stub.Service <;> simp [hse] at herr
  | some stubs =>
    rw [findStub_of_methodEntry L hm] at herr
    have hlen : ¬ stubs.length = 0 := by
      intro h0
      exact hne _ _ _ hm (List.length_eq_zero.mp h0)
    simp only [hlen, if_false] at herr
    cases hf : stubs.find? (hits L stub.Data) <;> simp [hf] at herr

/-- Witness of C18: the repository after two registrations is reachable, and
the lookup of `Svc`/`Get` there does not fail with the empty-stub-set error. -/
theorem reachable_never_empty_stub_set_witness :
    Reachable repoTwo
    ∧ findStub goLib repoTwo queryA ≠ .error (.emptyStubSet "Svc" "Get") :=
  ⟨Reachable.store _ stubSecond (Reachable.store _ stubFirst Reachable.empty),
    (reachable_never_empty_stub_set goLib repoTwo
      (Reachable.store _ stubSecond (Reachable.store _ stubFirst Reachable.empty))).2.2
      queryA "Svc" "Get"⟩

/-! ## Registration and lookups -/

/-- C19: a lookup that returns an output returns the same output after any
registration, be it for another service or method or for those of the query:
the new stub is appended behind the stub that answers. -/
theorem storeStub_keeps_answer {Output : Type} (L : Lib) (R : stubMapping Output)
    (stub : findStubPayload) (s : Stub Output) (O : Output)
    (h : findStub L R stub = .ok O) : findStub L (storeStub R s).1 stub = .ok O := by
  cases hm : methodEntry R stub.Service stub.Method with
  | none =>
    rw [findStub_of_no_methodEntry L hm] at h
    cases hse : serviceEntry R stub.Service <;> simp [hse] at h
  | some stubs =>
    rw [findStub_of_methodEntry L hm] at h
    by_cases hlen : stubs.length = 0
    · simp [hlen] at h
    · simp only [hlen, if_false] at h
      cases hf : stubs.find? (hits L stub.Data) with
      | none => simp [hf] at h
      | some t =>
        simp only [hf, Except.ok.injEq] at h
        by_cases hsame : stub.Service = s.Service ∧ stub.Method = s.Method
        · have hm2 : methodEntry (storeStub R s).1 stub.Service stub.Method
              = some (stubs ++ [{ Input := s.Input, Output := s.Output }]) := by
            rw [hsame.1, hsame.2, methodEntry_storeStub_self, ← hsame.1, ← hsame.2, hm]
            rfl
          rw [findStub_of_methodEntry L hm2]
          simp [hf, h]
        · have hm2 : methodEntry (storeStub R s).1 stub.Service stub.Method = some stubs := by
            rw [methodEntry_storeStub_other R s _ _ hsame, hm]
          rw [findStub_of_methodEntry L hm2]
          simp [hlen, hf, h]

/-- Witness of C19: the lookup of `Svc`/`Get` with payload `a: 1` answers
`first`, and still does after one more registration for `Svc`/`Get`. -/
theorem storeStub_keeps_answer_witness :
    findStub goLib (storeStub repoTwo stubSecond).1 queryA = .ok "first" :=
  storeStub_keeps_answer goLib repoTwo queryA stubSecond "first" rfl

/-! ## Symmetry of `reflect.DeepEqual` -/

theorem float32Eq_symm (a b : Nat) : float32Eq a b = float32Eq b a := by
  by_cases h : a = b
  · subst h
    rfl
  · have h1 : (a == b) = false := beq_false_of_ne h
    have h2 : (b == a) = false := beq_false_of_ne (Ne.symm h)
    simp only [float32Eq, h1, h2, Bool.false_or]
    cases isNaN32 a <;> cases isNaN32 b <;> simp [Bool.and_comm]

theorem float64Eq_symm (a b : Nat) : float64Eq a b = float64Eq b a := by
  by_cases h : a = b
  · subst h
    rfl
  · have h1 : (a == b) = false := beq_false_of_ne h
    have h2 : (b == a) = false := beq_false_of_ne (Ne.symm h)
    simp only [float64Eq, h1, h2, Bool.false_or]
    cases isNaN64 a <;> cases isNaN64 b <;> simp [Bool.and_comm]

theorem distinctKeys_of_mem {m : List (String × Value)} (h : distinctKeysEntries m = true)
    {kv : String × Value} (hkv : kv ∈ m) : distinctKeys kv.2 = true := by
  induction m with
  | nil => simp at hkv
  | cons p rest ih =>
    simp only [distinctKeysEntries, Bool.and_eq_true] at h
    rcases List.mem_cons.mp hkv with heq | hmem
    · subst heq
      exact h.1
    · exact ih h.2 hmem

theorem sameEntries_symm {d e : List (String × Value)} (hd : keysDistinct d = true)
    (h : sameEntries d e)
    (hsym : ∀ kv ∈ d, ∀ w, lookup kv.1 e = some w → deepEqual kv.2 w = true →
      deepEqual w kv.2 = true) :
    sameEntries e d := by
  refine ⟨fun k => (h.1 k).symm, ?_⟩
  intro k w hw
  have hk : k ∈ d.map Prod.fst :=
    (h.1 k).mpr (List.mem_map.mpr ⟨(k, w), mem_of_lookup_eq_some hw, rfl⟩)
  obtain ⟨kv, hkv, hkk⟩ := List.mem_map.mp hk
  obtain ⟨k2, v⟩ := kv
  simp only at hkk
  subst hkk
  have hv := lookup_of_keysDistinct hd hkv
  obtain ⟨w2, hw2, hq⟩ := h.2 k2 v hv
  rw [hw] at hw2
  cases hw2
  exact ⟨v, hv, hsym (k2, v) hkv w hw hq⟩

mutual
/-- On values whose maps have distinct keys, `reflect.DeepEqual` is symmetric. -/
theorem deepEqual_symm : ∀ v w : Value, distinctKeys v = true → distinctKeys w = true →
    deepEqual v w = true → deepEqual w v = true
  | .nil, w, _, _, h => by
    rcases w with _ | _ | _ | _ | _ | _ | _ | _ | _ | _ | (_ | _) | (_ | _) <;>
      first | rfl | simp [deepEqual] at h
  | .str a, w, _, _, h => by
    rcases w with _ | _ | _ | _ | _ | _ | _ | _ | _ | _ | (_ | _) | (_ | _) <;>
      first | (simp [deepEqual] at h ⊢; exact h.symm) | simp [deepEqual] at h
  | .int a, w, _, _, h => by
    rcases w with _ | _ | _ | _ | _ | _ | _ | _ | _ | _ | (_ | _) | (_ | _) <;>
      first | (simp [deepEqual] at h ⊢; exact h.symm) | simp [deepEqual] at h
  | .int8 a, w, _, _, h => by
    rcases w with _ | _ | _ | _ | _ | _ | _ | _ | _ | _ | (_ | _) | (_ | _) <;>
      first | (simp [deepEqual] at h ⊢; exact h.symm) | simp [deepEqual] at h
  | .int16 a, w, _, _, h => by
    rcases w with _ | _ | _ | _ | _ | _ | _ | _ | _ | _ | (_ | _) | (_ | _) <;>
      first | (simp [deepEqual] at h ⊢; exact h.symm) | simp [deepEqual] at h
  | .int32 a, w, _, _, h => by
    rcases w with _ | _ | _ | _ | _ | _ | _ | _ | _ | _ | (_ | _) | (_ | _) <;>
      first | (simp [deepEqual] at h ⊢; exact h.symm) | simp [deepEqual] at h
  | .int64 a, w, _, _, h => by
    rcases w with _ | _ | _ | _ | _ | _ | _ | _ | _ | _ | (_ | _) | (_ | _) <;>
      first | (simp [deepEqual] at h ⊢; exact h.symm) | simp [deepEqual] at h
  | .float32 a, w, _, _, h => by
    rcases w with _ | _ | _ | _ | _ | _ | _ | _ | _ | _ | (_ | _) | (_ | _) <;>
      first | (simp only [deepEqual] at h ⊢; rw [float32Eq_symm]; exact h) | simp [deepEqual] at h
  | .float64 a, w, _, _, h => by
    rcases w with _ | _ | _ | _ | _ | _ | _ | _ | _ | _ | (_ | _) | (_ | _) <;>
      first | (simp only [deepEqual] at h ⊢; rw [float64Eq_symm]; exact h) | simp [deepEqual] at h
  | .bool a, w, _, _, h => by
    rcases w with _ | _ | _ | _ | _ | _ | _ | _ | _ | _ | (_ | _) | (_ | _) <;>
      first | (simp [deepEqual] at h ⊢; exact h.symm) | simp [deepEqual] at h
  | .map none, w, _, _, h => by
    rcases w with _ | _ | _ | _ | _ | _ | _ | _ | _ | _ | (_ | _) | (_ | _) <;>
      first | rfl | simp [deepEqual] at h
  | .map (some m1), w, hv, hw, h => by
    rcases w with _ | _ | _ | _ | _ | _ | _ | _ | _ | _ | (_ | m2) | (_ | _) <;>
      try (simp [deepEqual] at h; done)
    simp only [distinctKeys, Bool.and_eq_true] at hv hw
    rw [deepEqual_map_iff m1 m2 hv.1 hw.1] at h
    rw [deepEqual_map_iff m2 m1 hw.1 hv.1]
    refine sameEntries_symm hv.1 h ?_
    intro kv hkv w2 hl hq
    exact deepEqual_symm_entries m1 kv hkv w2 (distinctKeys_of_mem hv.2 hkv)
      (distinctKeys_of_mem hw.2 (mem_of_lookup_eq_some hl)) hq
  | .slice none, w, _, _, h => by
    rcases w with _ | _ | _ | _ | _ | _ | _ | _ | _ | _ | (_ | _) | (_ | _) <;>
      first | rfl | simp [deepEqual] at h
  | .slice (some xs), w, hv, hw, h => by
    rcases w with _ | _ | _ | _ | _ | _ | _ | _ | _ | _ | (_ | _) | (_ | ys) <;>
      try (simp [deepEqual] at h; done)
    simp only [distinctKeys] at hv hw
    simp only [deepEqual] at h ⊢
    exact deepEqual_symm_elems xs ys hv hw h
theorem deepEqual_symm_entries : ∀ m : List (String × Value), ∀ kv ∈ m, ∀ w : Value,
    distinctKeys kv.2 = true → distinctKeys w = true → deepEqual kv.2 w = true →
    deepEqual w kv.2 = true
  | [], kv, hkv, _, _, _, _ => by simp at hkv
  | (k, v) :: rest, kv, hkv, w, hv, hw, h => by
    rcases List.mem_cons.mp hkv with heq | hmem
    · subst heq
      exact deepEqual_symm v w hv hw h
    · exact deepEqual_symm_entries rest kv hmem w hv hw h
theorem deepEqual_symm_elems : ∀ xs ys : List Value, distinctKeysElems xs = true →
    distinctKeysElems ys = true → deepEqualElems xs ys = true → deepEqualElems ys xs = true
  | [], ys, _, _, h => by
    cases ys with
    | nil => rfl
    | cons _ _ => simp [deepEqualElems] at h
  | x :: xs, ys, hx, hy, h => by
    cases ys with
    | nil => simp [deepEqualElems] at h
    | cons y ys =>
      simp only [distinctKeysElems, Bool.and_eq_true] at hx hy
      simp only [deepEqualElems, Bool.and_eq_true] at h ⊢
      exact ⟨deepEqual_symm x y hx.1 hy.1 h.1, deepEqual_symm_elems xs ys hx.2 hy.2 h.2⟩
end

/-! ## Rounding to `float32` -/

theorem divRoundHalfEven_le {a b c : Nat} (hb : 0 < b) (h : a ≤ c * b) :
    divRoundHalfEven a b ≤ c := by
  have hq : a / b ≤ c := by
    have := Nat.div_le_div_right (c := b) h
    rwa [Nat.mul_div_cancel _ hb] at this
  have hdm := Nat.div_add_mod a b
  have hr := Nat.mod_lt a hb
  simp only [divRoundHalfEven]
  rcases Nat.lt_or_ge (a / b) c with hlt | hge
  · split_ifs <;> omega
  · have hqc : a / b = c := Nat.le_antisymm hq hge
    have hr0 : a % b = 0 := by
      have h2 : b * (a / b) = c * b := by rw [hqc, Nat.mul_comm]
      omega
    have : 2 * (a % b) < b := by omega
    simp [this, hqc]

theorem le_divRoundHalfEven {a b c : Nat} (hb : 0 < b) (h : c * b ≤ a) :
    c ≤ divRoundHalfEven a b := by
  have hq : c ≤ a / b := (Nat.le_div_iff_mul_le hb).mpr h
  simp only [divRoundHalfEven]
  split_ifs <;> omega

theorem divRoundHalfEven_mono {a a2 b : Nat} (hb : 0 < b) (h : a ≤ a2) :
    divRoundHalfEven a b ≤ divRoundHalfEven a2 b := by
  have hq : a / b ≤ a2 / b := Nat.div_le_div_right h
  have h1 := Nat.div_add_mod a b
  have h2 := Nat.div_add_mod a2 b
  have hr1 := Nat.mod_lt a hb
  have hr2 := Nat.mod_lt a2 hb
  rcases Nat.lt_or_ge (a / b) (a2 / b) with hlt | hge
  · have hle1 : divRoundHalfEven a b ≤ a / b + 1 := by
      simp only [divRoundHalfEven]
      split_ifs <;> omega
    have hle2 : a2 / b ≤ divRoundHalfEven a2 b := by
      simp only [divRoundHalfEven]
      split_ifs <;> omega
    omega
  · have hqq : a / b = a2 / b := Nat.le_antisymm hq hge
    have hrr : a % b ≤ a2 % b := by
      have : b * (a / b) = b * (a2 / b) := by rw [hqq]
      omega
    simp only [divRoundHalfEven, hqq]
    split_ifs <;> omega

theorem log2Fuel_spec : ∀ fuel n : Nat, n ≤ fuel → 1 ≤ n →
    2 ^ log2Fuel fuel n ≤ n ∧ n < 2 ^ (log2Fuel fuel n + 1)
  | 0, n, h, h1 => by omega
  | fuel + 1, n, h, h1 => by
    by_cases hn : n < 2
    · have : n = 1 := by omega
      subst this
      simp [log2Fuel]
    · have hdiv : n / 2 ≤ fuel := by omega
      have hpos : 1 ≤ n / 2 := by omega
      obtain ⟨hlo, hhi⟩ := log2Fuel_spec fuel (n / 2) hdiv hpos
      simp only [log2Fuel, hn, if_false]
      constructor
      · rw [Nat.pow_succ]
        omega
      · rw [Nat.pow_succ]
        omega

theorem floorLog2_le {n : Nat} (h : 1 ≤ n) : 2 ^ floorLog2 n ≤ n :=
  (log2Fuel_spec n n (Nat.le_refl n) h).1

theorem floorLog2_lt (n : Nat) : n < 2 ^ (floorLog2 n + 1) := by
  rcases Nat.eq_zero_or_pos n with h | h
  · subst h
    simp
  · exact (log2Fuel_spec n n (Nat.le_refl n) h).2

theorem floorLog2_mono {n n2 : Nat} (h : n ≤ n2) : floorLog2 n ≤ floorLog2 n2 := by
  rcases Nat.eq_zero_or_pos n with h0 | h0
  · subst h0
    simp [floorLog2, log2Fuel]
  · have h1 := floorLog2_le h0
    have h2 := floorLog2_lt n2
    have : 2 ^ floorLog2 n < 2 ^ (floorLog2 n2 + 1) := by omega
    have := (Nat.pow_lt_pow_iff_right (by norm_num : 1 < 2)).mp this
    omega

theorem floorLog2_ge {n k : Nat} (h : 2 ^ k ≤ n) : k ≤ floorLog2 n := by
  have h2 := floorLog2_lt n
  have : 2 ^ k < 2 ^ (floorLog2 n + 1) := by omega
  have := (Nat.pow_lt_pow_iff_right (by norm_num : 1 < 2)).mp this
  omega

theorem floorLog2_lt_of_lt {n k : Nat} (h : n < 2 ^ k) : floorLog2 n < k ∨ floorLog2 n = 0 := by
  rcases Nat.eq_zero_or_pos n with h0 | h0
  · subst h0
    right
    simp [floorLog2, log2Fuel]
  · left
    have h1 := floorLog2_le h0
    have : 2 ^ floorLog2 n < 2 ^ k := by omega
    exact (Nat.pow_lt_pow_iff_right (by norm_num : 1 < 2)).mp this

theorem cancel_scale_lt {a b c d p q : Nat} (hd : 0 < d) (hcd : c * d = a * b)
    (h : p * a < c * q) : p * d < b * q := by
  have h1 : p * a * d < c * q * d := Nat.mul_lt_mul_of_pos_right h hd
  have h2 : c * q * d = a * (b * q) := by
    rw [show c * q * d = c * d * q by ring, hcd]
    ring
  have h3 : p * a * d = a * (p * d) := by ring
  rw [h2, h3] at h1
  exact Nat.lt_of_mul_lt_mul_left h1

theorem cancel_scale_le {a b c d p q : Nat} (ha : 0 < a) (hcd : c * d = a * b)
    (h : c * q ≤ p * a) : b * q ≤ p * d := by
  have h1 : c * q * d ≤ p * a * d := Nat.mul_le_mul_right _ h
  have h2 : c * q * d = a * (b * q) := by
    rw [show c * q * d = c * d * q by ring, hcd]
    ring
  have h3 : p * a * d = a * (p * d) := by ring
  rw [h2, h3] at h1
  exact Nat.le_of_mul_le_mul_left h1 ha

theorem two_pow_split {x y u v : Nat} (h : x + y = u + v) :
    2 ^ x * 2 ^ y = 2 ^ u * 2 ^ v := by
  rw [← Nat.pow_add, ← Nat.pow_add, h]

theorem two_pow_split3 {x u v w : Nat} (h : x = u + v + w) :
    2 ^ x * 1 = 2 ^ u * (2 ^ v * 2 ^ w) := by
  subst h
  rw [Nat.mul_one, Nat.pow_add, Nat.pow_add, Nat.mul_assoc]

theorem roundToFloat32_mantissa_le {p q B : Nat} (hq : 0 < q)
    (hB : p * 2 ^ 127 / q < 2 ^ (B + 1)) :
    (if B ≤ 150 then divRoundHalfEven (p * 2 ^ (150 - B)) q
      else divRoundHalfEven p (q * 2 ^ (B - 150))) ≤ 2 ^ 24 := by
  have hlt : p * 2 ^ 127 < 2 ^ (B + 1) * q := (Nat.div_lt_iff_lt_mul hq).mp hB
  by_cases hb : B ≤ 150
  · simp only [hb, if_true]
    apply divRoundHalfEven_le hq
    exact Nat.le_of_lt (cancel_scale_lt (Nat.two_pow_pos _)
      (two_pow_split (by omega : B + 1 + (150 - B) = 127 + 24)) hlt)
  · simp only [hb, if_false]
    apply divRoundHalfEven_le (Nat.mul_pos hq (Nat.two_pow_pos _))
    have hsplit : 2 ^ (B + 1) * 1 = 2 ^ 127 * (2 ^ 24 * 2 ^ (B - 150)) :=
      two_pow_split3 (by omega)
    have h1 := cancel_scale_lt Nat.one_pos hsplit hlt
    rw [Nat.mul_one] at h1
    have h2 : 2 ^ 24 * 2 ^ (B - 150) * q = 2 ^ 24 * (q * 2 ^ (B - 150)) := by ring
    rw [h2] at h1
    exact Nat.le_of_lt h1

theorem roundToFloat32_mantissa_ge {p q B : Nat} (hq : 0 < q)
    (hB : 2 ^ B ≤ p * 2 ^ 127 / q) :
    2 ^ 23 ≤ (if B ≤ 150 then divRoundHalfEven (p * 2 ^ (150 - B)) q
      else divRoundHalfEven p (q * 2 ^ (B - 150))) := by
  have hle : 2 ^ B * q ≤ p * 2 ^ 127 := (Nat.le_div_iff_mul_le hq).mp hB
  by_cases hb : B ≤ 150
  · simp only [hb, if_true]
    apply le_divRoundHalfEven hq
    exact cancel_scale_le (Nat.two_pow_pos _)
      (two_pow_split (by omega : B + (150 - B) = 127 + 23)) hle
  · simp only [hb, if_false]
    apply le_divRoundHalfEven (Nat.mul_pos hq (Nat.two_pow_pos _))
    have hsplit : 2 ^ B * 1 = 2 ^ 127 * (2 ^ 23 * 2 ^ (B - 150)) :=
      two_pow_split3 (by omega)
    have h1 := cancel_scale_le (Nat.two_pow_pos 127) hsplit hle
    rw [Nat.mul_one] at h1
    have h2 : 2 ^ 23 * 2 ^ (B - 150) * q = 2 ^ 23 * (q * 2 ^ (B - 150)) := by ring
    rw [h2] at h1
    exact h1

/-- The biased exponent `roundToFloat32` computes bounds the scaled quotient. -/
theorem roundToFloat32_exponent_bound (X : Nat) : X < 2 ^ (max 1 (floorLog2 X) + 1) := by
  have h1 := floorLog2_lt X
  have h2 : 2 ^ (floorLog2 X + 1) ≤ 2 ^ (max 1 (floorLog2 X) + 1) :=
    Nat.pow_le_pow_right (by norm_num) (by omega)
  omega

/-- The nearest `float32` to a positive rational that is at most 1 is at most 1. -/
theorem roundToFloat32_le_one {p q : Nat} (hq : 0 < q) (h : p ≤ q) :
    roundToFloat32 p q ≤ one32 := by
  have hX : p * 2 ^ 127 / q ≤ 2 ^ 127 :=
    Nat.div_le_of_le_mul (Nat.mul_le_mul_right _ h)
  have hlog : floorLog2 (p * 2 ^ 127 / q) ≤ 127 := by
    have h1 := floorLog2_mono hX
    have h2 : floorLog2 (2 ^ 127) < 128 ∨ floorLog2 (2 ^ 127) = 0 :=
      floorLog2_lt_of_lt (Nat.pow_lt_pow_right (by norm_num) (by norm_num))
    omega
  have hB : max 1 (floorLog2 (p * 2 ^ 127 / q)) ≤ 127 := by omega
  have hm := roundToFloat32_mantissa_le hq (roundToFloat32_exponent_bound (p * 2 ^ 127 / q))
  simp only [roundToFloat32]
  apply Nat.le_trans (Nat.min_le_left _ _)
  generalize max 1 (floorLog2 (p * 2 ^ 127 / q)) = B at hB hm ⊢
  rcases Nat.lt_or_ge B 127 with hlt | hge
  · have : (B - 1) * 2 ^ 23 ≤ 125 * 2 ^ 23 := Nat.mul_le_mul_right _ (by omega)
    simp only [one32]
    omega
  · have hB127 : B = 127 := by omega
    subst hB127
    have hm2 : divRoundHalfEven (p * 2 ^ (150 - 127)) q ≤ 2 ^ 23 := by
      apply divRoundHalfEven_le hq
      rw [Nat.mul_comm]
      exact Nat.mul_le_mul_left _ h
    simp only [show (127 : Nat) ≤ 150 by norm_num, if_true, one32]
    omega

/-- Rounding to `float32` is monotone in the numerator. -/
theorem roundToFloat32_mono {p p2 q : Nat} (hq : 0 < q) (h : p ≤ p2) :
    roundToFloat32 p q ≤ roundToFloat32 p2 q := by
  have hX : p * 2 ^ 127 / q ≤ p2 * 2 ^ 127 / q :=
    Nat.div_le_div_right (Nat.mul_le_mul_right _ h)
  have hlog := floorLog2_mono hX
  have hup := roundToFloat32_mantissa_le hq (roundToFloat32_exponent_bound (p * 2 ^ 127 / q))
  simp only [roundToFloat32]
  apply min_le_min_right
  rcases Nat.lt_or_ge (max 1 (floorLog2 (p * 2 ^ 127 / q)))
      (max 1 (floorLog2 (p2 * 2 ^ 127 / q))) with hlt | hge
  · have hB2 : max 1 (floorLog2 (p2 * 2 ^ 127 / q)) = floorLog2 (p2 * 2 ^ 127 / q) := by
      have h1 := Nat.le_max_left 1 (floorLog2 (p * 2 ^ 127 / q))
      rcases Nat.lt_or_ge (floorLog2 (p2 * 2 ^ 127 / q)) 1 with h2 | h2
      · rw [Nat.max_eq_left (Nat.le_of_lt h2)] at hlt
        omega
      · exact Nat.max_eq_right h2
    have hpos : 1 ≤ p2 * 2 ^ 127 / q := by
      rcases Nat.eq_zero_or_pos (p2 * 2 ^ 127 / q) with h0 | h0
      · rw [h0] at hlt
        simp [floorLog2, log2Fuel] at hlt
      · exact h0
    have hlo := roundToFloat32_mantissa_ge hq (floorLog2_le hpos)
    rw [hB2] at hlt ⊢
    have hB1 : 1 ≤ max 1 (floorLog2 (p * 2 ^ 127 / q)) := Nat.le_max_left _ _
    generalize max 1 (floorLog2 (p * 2 ^ 127 / q)) = B at hlt hup hB1 ⊢
    generalize floorLog2 (p2 * 2 ^ 127 / q) = B2 at hlt hlo ⊢
    have h1 : (B - 1) * 2 ^ 23 + 2 ^ 24 ≤ (B2 - 1) * 2 ^ 23 + 2 ^ 23 := by
      have : (B - 1) + 2 ≤ (B2 - 1) + 1 := by omega
      have := Nat.mul_le_mul_right (2 ^ 23) this
      omega
    omega
  · have hBB : max 1 (floorLog2 (p * 2 ^ 127 / q)) = max 1 (floorLog2 (p2 * 2 ^ 127 / q)) := by
      omega
    rw [hBB]
    apply Nat.add_le_add_left
    split_ifs
    · exact divRoundHalfEven_mono hq (Nat.mul_le_mul_right _ h)
    · exact divRoundHalfEven_mono (Nat.mul_pos hq (Nat.two_pow_pos _)) h

/-- The conversion of a positive integer is at least 1. -/
theorem one_le_roundToFloat32 {n : Nat} (h : 1 ≤ n) : one32 ≤ roundToFloat32 n 1 := by
  have hX : 2 ^ 127 ≤ n * 2 ^ 127 / 1 := by
    rw [Nat.div_one]
    exact Nat.le_mul_of_pos_left _ h
  have hk : 127 ≤ floorLog2 (n * 2 ^ 127 / 1) := floorLog2_ge hX
  have hpos : 1 ≤ n * 2 ^ 127 / 1 := Nat.le_trans (Nat.one_le_two_pow) hX
  have hlo := roundToFloat32_mantissa_ge Nat.one_pos (floorLog2_le hpos)
  have hB : max 1 (floorLog2 (n * 2 ^ 127 / 1)) = floorLog2 (n * 2 ^ 127 / 1) := by omega
  simp only [roundToFloat32, hB]
  generalize floorLog2 (n * 2 ^ 127 / 1) = B at hk hlo ⊢
  have h1 : 126 * 2 ^ 23 ≤ (B - 1) * 2 ^ 23 := Nat.mul_le_mul_right _ (by omega)
  simp only [one32, inf32]
  omega

/-- The conversion of an integer below `2^64` is finite. -/
theorem roundToFloat32_lt_inf {n : Nat} (h : n < 2 ^ 64) : roundToFloat32 n 1 < inf32 := by
  have hX : n * 2 ^ 127 / 1 < 2 ^ 191 := by
    rw [Nat.div_one]
    have : n * 2 ^ 127 < 2 ^ 64 * 2 ^ 127 := Nat.mul_lt_mul_of_pos_right h (Nat.two_pow_pos _)
    rwa [← Nat.pow_add] at this
  have hk : floorLog2 (n * 2 ^ 127 / 1) < 191 ∨ floorLog2 (n * 2 ^ 127 / 1) = 0 :=
    floorLog2_lt_of_lt hX
  have hup := roundToFloat32_mantissa_le Nat.one_pos
    (roundToFloat32_exponent_bound (n * 2 ^ 127 / 1))
  simp only [roundToFloat32]
  apply Nat.lt_of_le_of_lt (Nat.min_le_left _ _)
  have hB : max 1 (floorLog2 (n * 2 ^ 127 / 1)) ≤ 190 := by omega
  generalize max 1 (floorLog2 (n * 2 ^ 127 / 1)) = B at hB hup ⊢
  have h1 : (B - 1) * 2 ^ 23 ≤ 189 * 2 ^ 23 := Nat.mul_le_mul_right _ (by omega)
  simp only [inf32]
  omega

/-- The values, in units of `2^-149`, of two normal magnitudes are ordered as the bits. -/
theorem float32Units_mono {a b : Nat} (ha : 2 ^ 23 ≤ a) (h : a ≤ b) :
    float32Units a ≤ float32Units b := by
  have hea : a / 2 ^ 23 ≠ 0 := by
    have : 1 ≤ a / 2 ^ 23 :=
      (Nat.le_div_iff_mul_le (Nat.two_pow_pos 23)).mpr (by rw [Nat.one_mul]; exact ha)
    omega
  have heb : b / 2 ^ 23 ≠ 0 := by
    have : 1 ≤ b / 2 ^ 23 :=
      (Nat.le_div_iff_mul_le (Nat.two_pow_pos 23)).mpr
        (by rw [Nat.one_mul]; exact Nat.le_trans ha h)
    omega
  have hdiv : a / 2 ^ 23 ≤ b / 2 ^ 23 := Nat.div_le_div_right h
  have hma := Nat.mod_lt a (Nat.two_pow_pos 23)
  have hmb := Nat.mod_lt b (Nat.two_pow_pos 23)
  simp only [float32Units, hea, heb, if_false]
  rcases Nat.lt_or_ge (a / 2 ^ 23) (b / 2 ^ 23) with hlt | hge
  · have h1 : (2 ^ 23 + a % 2 ^ 23) * 2 ^ (a / 2 ^ 23 - 1)
        ≤ 2 ^ 24 * 2 ^ (a / 2 ^ 23 - 1) := Nat.mul_le_mul_right _ (by omega)
    have h2 : 2 ^ 24 * 2 ^ (a / 2 ^ 23 - 1) = 2 ^ 23 * 2 ^ (a / 2 ^ 23) :=
      two_pow_split (by omega)
    have h3 : 2 ^ 23 * 2 ^ (a / 2 ^ 23) ≤ 2 ^ 23 * 2 ^ (b / 2 ^ 23 - 1) :=
      Nat.mul_le_mul_left _ (Nat.pow_le_pow_right (by norm_num) (by omega))
    have h4 : 2 ^ 23 * 2 ^ (b / 2 ^ 23 - 1)
        ≤ (2 ^ 23 + b % 2 ^ 23) * 2 ^ (b / 2 ^ 23 - 1) := Nat.mul_le_mul_right _ (by omega)
    exact Nat.le_trans h1 (h2 ▸ Nat.le_trans h3 h4)
  · have heq : a / 2 ^ 23 = b / 2 ^ 23 := Nat.le_antisymm hdiv hge
    have hmod : a % 2 ^ 23 ≤ b % 2 ^ 23 := by
      have h1 := Nat.div_add_mod a (2 ^ 23)
      have h2 := Nat.div_add_mod b (2 ^ 23)
      rw [heq] at h1
      omega
    rw [heq]
    exact Nat.mul_le_mul_right _ (by omega)

theorem float32Units_pos {a : Nat} (ha : 2 ^ 23 ≤ a) : 0 < float32Units a := by
  have hea : a / 2 ^ 23 ≠ 0 := by
    have : 1 ≤ a / 2 ^ 23 :=
      (Nat.le_div_iff_mul_le (Nat.two_pow_pos 23)).mpr (by rw [Nat.one_mul]; exact ha)
    omega
  simp only [float32Units, hea, if_false]
  exact Nat.mul_pos (by omega) (Nat.two_pow_pos _)

/-! ## The rank -/

theorem float32OfInt_natCast {n : Nat} (h : 1 ≤ n) :
    float32OfInt (n : Int) = roundToFloat32 n 1 := by
  have h1 : (n : Int) ≠ 0 := by omega
  have h2 : ¬ (n : Int) < 0 := by omega
  simp [float32OfInt, h1, h2]

theorem isNaN32_of_le_inf {a : Nat} (h : a ≤ inf32) : isNaN32 a = false := by
  simp only [inf32] at h
  simp only [isNaN32, Bool.and_eq_false_iff, beq_eq_false_iff_ne, bne_eq_false_iff_eq, ne_eq]
  rcases Nat.lt_or_ge a 0x7F800000 with hlt | hge
  · left
    omega
  · right
    omega

/-- The quotient of two finite `float32` that are at least 1. -/
theorem float32Div_of_normal {a b : Nat} (ha : one32 ≤ a) (ha2 : a < inf32) (hb : one32 ≤ b)
    (hb2 : b < inf32) :
    float32Div a b = roundToFloat32 (float32Units a) (float32Units b) := by
  have hna := isNaN32_of_le_inf (Nat.le_of_lt ha2)
  have hnb := isNaN32_of_le_inf (Nat.le_of_lt hb2)
  simp only [one32, inf32] at ha ha2 hb hb2
  have h1 : a % 2147483648 = a := Nat.mod_eq_of_lt (by omega)
  have h2 : b % 2147483648 = b := Nat.mod_eq_of_lt (by omega)
  have h3 : a / 2147483648 = 0 := Nat.div_eq_of_lt (by omega)
  have h4 : b / 2147483648 = 0 := Nat.div_eq_of_lt (by omega)
  have h5 : a ≠ inf32 := by simp only [inf32]; omega
  have h6 : b ≠ inf32 := by simp only [inf32]; omega
  have h7 : b ≠ 0 := by omega
  have h8 : a ≠ 0 := by omega
  simp [float32Div, hna, hnb, h1, h2, h3, h4, h5, h6, h7, h8]

/-- The quotient of zero by the conversion of a positive integer is zero. -/
theorem float32Div_zero_left {n : Nat} (h : 1 ≤ n) :
    float32Div 0 (roundToFloat32 n 1) = 0 := by
  have hb := one_le_roundToFloat32 h
  have hb2 : roundToFloat32 n 1 ≤ inf32 := by
    simp only [roundToFloat32]
    exact Nat.min_le_right _ _
  have hnb := isNaN32_of_le_inf hb2
  generalize roundToFloat32 n 1 = b at hb hb2 hnb
  simp only [one32, inf32] at hb hb2
  have h2 : b % 2147483648 = b := Nat.mod_eq_of_lt (by omega)
  have h4 : b / 2147483648 = 0 := Nat.div_eq_of_lt (by omega)
  have h7 : b ≠ 0 := by omega
  have h0 : isNaN32 0 = false := by decide
  have h9 : (0 : Nat) ≠ inf32 := by decide
  simp only [float32Div, hnb, h0, Bool.or_self, Bool.false_eq_true, if_false, Nat.zero_mod,
    Nat.zero_div, Nat.zero_add, Nat.reducePow, h2, h4, h7, h9, Nat.zero_mul]
  split_ifs <;> rfl

/-- The quotient of the conversions of two integers of the range of `int`,
the first positive and at most the second, is at most 1. -/
theorem float32Div_ofInt_le_one {occ tot : Nat} (h1 : 1 ≤ occ) (h2 : occ ≤ tot)
    (h3 : tot < 2 ^ 63) :
    float32Div (float32OfInt (occ : Int)) (float32OfInt (tot : Int)) ≤ one32 := by
  rw [float32OfInt_natCast h1, float32OfInt_natCast (Nat.le_trans h1 h2)]
  have hlt : (2 : Nat) ^ 63 < 2 ^ 64 := Nat.pow_lt_pow_right (by norm_num) (by norm_num)
  have ha := one_le_roundToFloat32 h1
  have hb := one_le_roundToFloat32 (Nat.le_trans h1 h2)
  have ha2 := roundToFloat32_lt_inf (n := occ) (by omega)
  have hb2 := roundToFloat32_lt_inf (n := tot) (by omega)
  have hab := roundToFloat32_mono (q := 1) Nat.one_pos h2
  rw [float32Div_of_normal ha ha2 hb hb2]
  have h23 : 2 ^ 23 ≤ roundToFloat32 occ 1 := by
    simp only [one32] at ha
    omega
  have h23b : 2 ^ 23 ≤ roundToFloat32 tot 1 := by
    simp only [one32] at hb
    omega
  exact roundToFloat32_le_one (float32Units_pos h23b) (float32Units_mono h23 hab)

theorem countOccurence_eq (F : Fmt) (text : String) (l : List (String × Value)) (acc : Nat) :
    countOccurence F text l acc = acc + occurrences F text l := by
  induction l generalizing acc with
  | nil => simp [countOccurence, occurrences]
  | cons p rest ih =>
    obtain ⟨k, v⟩ := p
    simp only [countOccurence, ih, occurrences, List.countP_cons]
    cases F.fuzzyMatch (k ++ ":") text <;> cases F.fuzzyMatch (F.sprint v) text <;>
      simp <;> omega

theorem occurrences_le (F : Fmt) (text : String) (l : List (String × Value)) :
    occurrences F text l ≤ l.length * 2 := by
  have h1 := List.countP_le_length (fun kv : String × Value => F.fuzzyMatch (kv.1 ++ ":") text)
    (l := l)
  have h2 := List.countP_le_length (fun kv : String × Value => F.fuzzyMatch (F.sprint kv.2) text)
    (l := l)
  simp only [occurrences]
  omega

/-- The rank of a mapping whose size is in the range of `int` is zero or a
positive `float32` that is at most 1. -/
theorem rankMatch_le_one (F : Fmt) (text : String) (m : Fields)
    (h : (entries m).length * 2 < 2 ^ 63) : rankMatch F text m ≤ one32 := by
  simp only [rankMatch, countOccurence_eq, Nat.zero_add]
  by_cases h0 : occurrences F text (entries m) = 0
  · simp [h0]
  · simp only [h0, if_false]
    have := float32Div_ofInt_le_one (Nat.pos_of_ne_zero h0) (occurrences_le F text (entries m)) h
    simpa using this

/-- On the `float32` from 0 to 1, Go's `>` is the order of the bits. -/
theorem float32Gt_of_le_one {a b : Nat} (ha : a ≤ one32) (hb : b ≤ one32) :
    float32Gt a b = decide (b < a) := by
  have hna := isNaN32_of_le_inf (a := a) (by simp only [one32, inf32] at ha ⊢; omega)
  have hnb := isNaN32_of_le_inf (a := b) (by simp only [one32, inf32] at hb ⊢; omega)
  simp only [one32] at ha hb
  have h1 : a % 2147483648 = a := Nat.mod_eq_of_lt (by omega)
  have h2 : b % 2147483648 = b := Nat.mod_eq_of_lt (by omega)
  have h3 : a / 2147483648 = 0 := Nat.div_eq_of_lt (by omega)
  have h4 : b / 2147483648 = 0 := Nat.div_eq_of_lt (by omega)
  simp [float32Gt, float32Key, hna, hnb, h1, h2, h3, h4]

/-- On the `float32` from 0 to 1, Go's `== 0` holds of the bits 0 only. -/
theorem float32Eq_zero_of_le_one {a : Nat} (ha : a ≤ one32) :
    float32Eq a 0 = decide (a = 0) := by
  have hna := isNaN32_of_le_inf (a := a) (by simp only [one32, inf32] at ha ⊢; omega)
  have h0 : isNaN32 0 = false := by decide
  simp only [one32] at ha
  have h1 : a % 2147483648 = a := Nat.mod_eq_of_lt (by omega)
  by_cases h : a = 0
  · subst h
    decide
  · simp [float32Eq, hna, h0, h1, h]

/-- C14: for a mapping of `n ≥ 1` entries `rankMatch` returns the `float32`
quotient of the occurrences by `2 * n`, the occurrences counting one for each
entry whose key followed by a colon is found in the text by `fuzzy.Match` and
one for each entry whose printed value is found.  For a mapping whose size is
in the range of `int` the rank is not a NaN and lies between 0 and 1.  With no
occurrence, and so for the empty mapping, `rankMatch` returns 0 from its guard,
before the division. -/
theorem rankMatch_value (F : Fmt) (text : String) (m : Fields) :
    (1 ≤ (entries m).length →
        rankMatch F text m
          = float32Div (float32OfInt (occurrences F text (entries m) : Nat))
              (float32OfInt ((entries m).length * 2 : Nat)))
    ∧ ((entries m).length * 2 < 2 ^ 63 →
        isNaN32 (rankMatch F text m) = false
        ∧ float32Gt 0 (rankMatch F text m) = false
        ∧ float32Gt (rankMatch F text m) one32 = false)
    ∧ (occurrences F text (entries m) = 0 → rankMatch F text m = 0)
    ∧ ((entries m).length = 0 →
        occurrences F text (entries m) = 0 ∧ rankMatch F text m = 0) := by
  have hzero : occurrences F text (entries m) = 0 → rankMatch F text m = 0 := by
    intro h0
    simp [rankMatch, countOccurence_eq, h0]
  refine ⟨?_, ?_, hzero, ?_⟩
  · intro hn
    by_cases h0 : occurrences F text (entries m) = 0
    · rw [hzero h0, h0]
      have h2 : 1 ≤ (entries m).length * 2 := by omega
      rw [float32OfInt_natCast h2]
      have : float32OfInt ((0 : Nat) : Int) = 0 := by simp [float32OfInt]
      rw [this, float32Div_zero_left h2]
    · simp [rankMatch, countOccurence_eq, h0]
  · intro hsize
    have hle := rankMatch_le_one F text m hsize
    have h0 : (0 : Nat) ≤ one32 := Nat.zero_le _
    refine ⟨isNaN32_of_le_inf (by simp only [one32, inf32] at hle ⊢; omega), ?_, ?_⟩
    · rw [float32Gt_of_le_one h0 hle]
      simp
    · rw [float32Gt_of_le_one hle (Nat.le_refl _)]
      simpa using hle
  · intro hn
    have h0 : occurrences F text (entries m) = 0 := by
      have := occurrences_le F text (entries m)
      omega
    exact ⟨h0, hzero h0⟩

set_option maxRecDepth 100000 in
/-- Witness of C14: in the rendering of the payload `a: 1, b: "x"` the mapping
`a: 1, c: "zz"` has two occurrences for two entries; its rank is the `float32`
one half, between 0 and 1. -/
theorem rankMatch_value_witness :
    rankMatch goFmt textAB (some [("a", .int 1), ("c", .str "zz")]) = 0x3F000000
    ∧ float32Gt (rankMatch goFmt textAB (some [("a", .int 1), ("c", .str "zz")])) one32
        = false :=
  ⟨by decide,
    ((rankMatch_value goFmt textAB (some [("a", .int 1), ("c", .str "zz")])).2.1
      (by decide)).2.2⟩

/-! ## The closest match -/

/-- The loop of `stubNotFoundError` over candidates whose ranks and starting
rank lie between 0 and 1: either no candidate has a higher rank than the
starting one and nothing changes, or the loop ends on the first candidate of
maximal rank. -/
theorem highestRankLoop_spec (F : Fmt) (text : String) :
    ∀ (l : List closeMatch) (h : Nat) (m : closeMatch), h ≤ one32 →
      (∀ c ∈ l, rankMatch F text c.expect ≤ one32) →
      ((∀ c ∈ l, rankMatch F text c.expect ≤ h) ∧ highestRankLoop F text l (h, m) = (h, m))
      ∨ ∃ pre c post, l = pre ++ c :: post
          ∧ highestRankLoop F text l (h, m) = (rankMatch F text c.expect, c)
          ∧ h < rankMatch F text c.expect
          ∧ (∀ x ∈ pre, rankMatch F text x.expect < rankMatch F text c.expect)
          ∧ (∀ x ∈ post, rankMatch F text x.expect ≤ rankMatch F text c.expect)
  | [], h, m, _, _ => by
    left
    simp [highestRankLoop]
  | c :: rest, h, m, hh, hall => by
    have hc : rankMatch F text c.expect ≤ one32 := hall c (List.mem_cons_self _ _)
    have hrest : ∀ x ∈ rest, rankMatch F text x.expect ≤ one32 :=
      fun x hx => hall x (List.mem_cons_of_mem _ hx)
    by_cases hgt : h < rankMatch F text c.expect
    · have hstep : highestRankLoop F text (c :: rest) (h, m)
          = highestRankLoop F text rest (rankMatch F text c.expect, c) := by
        simp [highestRankLoop, float32Gt_of_le_one hc hh, hgt]
      rcases highestRankLoop_spec F text rest (rankMatch F text c.expect) c hc hrest with
        ⟨hle, heq⟩ | ⟨pre, c2, post, hsplit, heq, hlt, hpre, hpost⟩
      · right
        exact ⟨[], c, rest, rfl, by rw [hstep, heq], hgt, by simp, hle⟩
      · right
        refine ⟨c :: pre, c2, post, by rw [hsplit]; rfl, by rw [hstep, heq],
          Nat.lt_trans hgt hlt, ?_, hpost⟩
        intro x hx
        rcases List.mem_cons.mp hx with hxc | hxp
        · rw [hxc]
          exact hlt
        · exact hpre x hxp
    · have hstep : highestRankLoop F text (c :: rest) (h, m)
          = highestRankLoop F text rest (h, m) := by
        simp [highestRankLoop, float32Gt_of_le_one hc hh, hgt]
      rcases highestRankLoop_spec F text rest h m hh hrest with
        ⟨hle, heq⟩ | ⟨pre, c2, post, hsplit, heq, hlt, hpre, hpost⟩
      · left
        refine ⟨?_, by rw [hstep, heq]⟩
        intro x hx
        rcases List.mem_cons.mp hx with hxc | hxr
        · rw [hxc]
          exact Nat.le_of_not_lt hgt
        · exact hle x hxr
      · right
        refine ⟨c :: pre, c2, post, by rw [hsplit]; rfl, by rw [hstep, heq], hlt, ?_, hpost⟩
        intro x hx
        rcases List.mem_cons.mp hx with hxc | hxp
        · rw [hxc]
          exact Nat.lt_of_le_of_lt (Nat.le_of_not_lt hgt) hlt
        · exact hpre x hxp

/-- The candidate named for a list of candidates (none empty of them) whose
sizes are in the range of `int`: the first of maximal rank. -/
theorem closestMatchOf_spec (F : Fmt) (text : String) (c0 : closeMatch) (rest : List closeMatch)
    (hsize : ∀ c ∈ c0 :: rest, (entries c.expect).length * 2 < 2 ^ 63) :
    ∃ pre c post, c0 :: rest = pre ++ c :: post
      ∧ closestMatchOf F text (c0 :: rest) = some c
      ∧ (∀ x ∈ pre, rankMatch F text x.expect < rankMatch F text c.expect)
      ∧ (∀ x ∈ post, rankMatch F text x.expect ≤ rankMatch F text c.expect) := by
  have hall : ∀ c ∈ c0 :: rest, rankMatch F text c.expect ≤ one32 :=
    fun c hc => rankMatch_le_one F text c.expect (hsize c hc)
  rcases highestRankLoop_spec F text (c0 :: rest) 0 { rule := "", expect := none }
      (Nat.zero_le _) hall with ⟨hle, heq⟩ | ⟨pre, c, post, hsplit, heq, hlt, hpre, hpost⟩
  · have hz : ∀ c ∈ c0 :: rest, rankMatch F text c.expect = 0 :=
      fun c hc => Nat.le_zero.mp (hle c hc)
    refine ⟨[], c0, rest, rfl, ?_, by simp, ?_⟩
    · simp only [closestMatchOf, heq]
      rfl
    · intro x hx
      rw [hz x (List.mem_cons_of_mem _ hx)]
      exact Nat.zero_le _
  · refine ⟨pre, c, post, hsplit, ?_, hpre, hpost⟩
    have hcm : c ∈ c0 :: rest := by
      rw [hsplit]
      simp
    have hne : rankMatch F text c.expect ≠ 0 := by omega
    simp only [closestMatchOf, heq, float32Eq_zero_of_le_one (hall c hcm)]
    simp [hne]

/-- C13: among the candidates of a failed lookup (at least one, their sizes in
the range of `int`), `stubNotFoundError` names the first of maximal rank: every
candidate met before it has a strictly lower rank and no candidate met after it
has a higher one, so of two candidates of the same rank the one met first is
named, and when every rank is 0 the first candidate is.  The candidates are
those of the stubs in insertion order and, within a stub, of the modes equals,
contains and matches in this order. -/
theorem closest_is_first_maximal {Output : Type} (F : Fmt) (stub : findStubPayload)
    (cms : List closeMatch) (hne : cms ≠ [])
    (hsize : ∀ c ∈ cms, (entries c.expect).length * 2 < 2 ^ 63) :
    (∃ pre c post, cms = pre ++ c :: post
      ∧ closestMatchOf F (renderFieldAsString F stub.Data) cms = some c
      ∧ (∀ x ∈ pre, float32Gt (rankMatch F (renderFieldAsString F stub.Data) c.expect)
            (rankMatch F (renderFieldAsString F stub.Data) x.expect) = true)
      ∧ (∀ x ∈ post, float32Gt (rankMatch F (renderFieldAsString F stub.Data) x.expect)
            (rankMatch F (renderFieldAsString F stub.Data) c.expect) = false))
    ∧ ((∀ x ∈ cms, rankMatch F (renderFieldAsString F stub.Data) x.expect = 0) →
        closestMatchOf F (renderFieldAsString F stub.Data) cms = cms.head?)
    ∧ (∀ (L : Lib) (R : stubMapping Output) (p : findStubPayload) (cms2 : List closeMatch),
        findStub L R stub = .error (.stubNotFound p cms2) →
        p = stub ∧ ∃ stubs, methodEntry R stub.Service stub.Method = some stubs
          ∧ cms2 = stubs.flatMap candidates)
    ∧ (∀ s : storage Output,
        candidates s = candidate "equals" s.Input.Equals
          ++ candidate "contains" s.Input.Contains ++ candidate "matches" s.Input.Matches) := by
  have hall : ∀ c ∈ cms, rankMatch F (renderFieldAsString F stub.Data) c.expect ≤ one32 :=
    fun c hc => rankMatch_le_one F _ c.expect (hsize c hc)
  cases cms with
  | nil => exact absurd rfl hne
  | cons c0 rest =>
    refine ⟨?_, ?_, ?_, fun _ => rfl⟩
    · obtain ⟨pre, c, post, hsplit, hsel, hpre, hpost⟩ :=
        closestMatchOf_spec F (renderFieldAsString F stub.Data) c0 rest hsize
      have hc : c ∈ c0 :: rest := by
        rw [hsplit]
        simp
      refine ⟨pre, c, post, hsplit, hsel, ?_, ?_⟩
      · intro x hx
        have hxm : x ∈ c0 :: rest := by
          rw [hsplit]
          simp [hx]
        rw [float32Gt_of_le_one (hall c hc) (hall x hxm)]
        simpa using hpre x hx
      · intro x hx
        have hxm : x ∈ c0 :: rest := by
          rw [hsplit]
          simp [hx]
        rw [float32Gt_of_le_one (hall x hxm) (hall c hc)]
        simpa using hpost x hx
    · intro hz
      obtain ⟨pre, c, post, hsplit, hsel, hpre, _⟩ :=
        closestMatchOf_spec F (renderFieldAsString F stub.Data) c0 rest hsize
      cases pre with
      | nil =>
        simp only [List.nil_append, List.cons.injEq] at hsplit
        rw [hsel, hsplit.1]
        rfl
      | cons x pre2 =>
        have hc : c ∈ c0 :: rest := by
          rw [hsplit]
          simp
        have hx : x ∈ c0 :: rest := by
          rw [hsplit]
          simp
        have := hpre x (List.mem_cons_self _ _)
        rw [hz c hc, hz x hx] at this
        exact absurd this (Nat.lt_irrefl _)
    · intro L R p cms2 herr
      cases hm : methodEntry R stub.Service stub.Method with
      | none =>
        rw [findStub_of_no_methodEntry L hm] at herr
        cases hse : serviceEntry R stub.Service <;> simp [hse] at herr
      | some stubs =>
        rw [findStub_of_methodEntry L hm] at herr
        by_cases hlen : stubs.length = 0
        · simp [hlen] at herr
        · simp only [hlen, if_false] at herr
          cases hf : stubs.find? (hits L stub.Data) with
          | some s => simp [hf] at herr
          | none =>
            simp only [hf, Except.error.injEq, FindError.stubNotFound.injEq] at herr
            exact ⟨herr.1.symm, stubs, rfl, herr.2.symm⟩

set_option maxRecDepth 100000 in
/-- Witness of C13: of three candidates of ranks 0, 1 and 1 for the payload
`a: "x"`, the second, the first of rank 1, is named. -/
theorem closest_is_first_maximal_witness :
    closestMatchOf goFmt (renderFieldAsString goFmt queryX.Data) sampleCandidates
      = some { rule := "contains", expect := some [("a", .str "x")] }
    ∧ ∃ pre c post, sampleCandidates = pre ++ c :: post
      ∧ closestMatchOf goFmt (renderFieldAsString goFmt queryX.Data) sampleCandidates = some c
      ∧ (∀ x ∈ pre, float32Gt (rankMatch goFmt (renderFieldAsString goFmt queryX.Data) c.expect)
            (rankMatch goFmt (renderFieldAsString goFmt queryX.Data) x.expect) = true)
      ∧ (∀ x ∈ post, float32Gt (rankMatch goFmt (renderFieldAsString goFmt queryX.Data) x.expect)
            (rankMatch goFmt (renderFieldAsString goFmt queryX.Data) c.expect) = false) :=
  ⟨by rfl,
    (@closest_is_first_maximal String goFmt queryX sampleCandidates (List.cons_ne_nil _ _)
      (by decide)).1⟩

/-! ## The message of a failed lookup -/

theorem highestRankLoop_mem (F : Fmt) (text : String) :
    ∀ (l : List closeMatch) (hm : Nat × closeMatch),
      highestRankLoop F text l hm = hm ∨ (highestRankLoop F text l hm).2 ∈ l
  | [], hm => by
    left
    rfl
  | c :: rest, hm => by
    by_cases hgt : float32Gt (rankMatch F text c.expect) hm.1 = true
    · have hstep : highestRankLoop F text (c :: rest) hm
          = highestRankLoop F text rest (rankMatch F text c.expect, c) := by
        simp [highestRankLoop, hgt]
      right
      rw [hstep]
      rcases highestRankLoop_mem F text rest (rankMatch F text c.expect, c) with h | h
      · rw [h]
        exact List.mem_cons_self _ _
      · exact List.mem_cons_of_mem _ h
    · have hstep : highestRankLoop F text (c :: rest) hm = highestRankLoop F text rest hm := by
        simp [highestRankLoop, hgt]
      rw [hstep]
      rcases highestRankLoop_mem F text rest hm with h | h
      · left
        exact h
      · right
        exact List.mem_cons_of_mem _ h

/-- On a list that is not empty `closestMatchOf` names one of its candidates:
the read `closestMatches[0]` is in bounds. -/
theorem closestMatchOf_mem (F : Fmt) (text : String) (cms : List closeMatch) (hne : cms ≠ []) :
    ∃ c ∈ cms, closestMatchOf F text cms = some c := by
  cases cms with
  | nil => exact absurd rfl hne
  | cons c0 rest =>
    cases hz : float32Eq (highestRankLoop F text (c0 :: rest) (0, { rule := "", expect := none })).1 0 with
    | true =>
      exact ⟨c0, List.mem_cons_self _ _, by simp [closestMatchOf, hz]⟩
    | false =>
      rcases highestRankLoop_mem F text (c0 :: rest) (0, { rule := "", expect := none }) with h | h
      · rw [h] at hz
        exact absurd hz (by decide)
      · exact ⟨_, h, by simp [closestMatchOf, hz]⟩

/-- C15: `stubNotFoundError` always returns an error and never panics.  With
no candidate the message is the head followed by the rendered payload, from
the guard on the length, before any read of `closestMatches[0]`.  With a
candidate at least the message is the same text followed by one closest-match
section, which names the rule and the rendered expectation of the candidate
selected, a member of the list.  The text of the error is what `fmt.Errorf`
prints for this message taken as its format. -/
theorem stubNotFoundError_sections (F : Fmt) (stub : findStubPayload) (cms : List closeMatch) :
    (stubNotFoundError F stub cms).isSome = true
    ∧ (cms = [] →
        notFoundTemplate F stub cms
          = some (notFoundHeader stub ++ renderFieldAsString F stub.Data)
        ∧ stubNotFoundError F stub cms
          = some (F.errorf (notFoundHeader stub ++ renderFieldAsString F stub.Data)))
    ∧ (cms ≠ [] →
        ∃ c ∈ cms, closestMatchOf F (renderFieldAsString F stub.Data) cms = some c
          ∧ notFoundTemplate F stub cms
            = some (notFoundHeader stub ++ renderFieldAsString F stub.Data
                ++ ("\n\nClosest Match \n\n" ++ c.rule ++ ":" ++ renderFieldAsString F c.expect))
          ∧ stubNotFoundError F stub cms
            = some (F.errorf (notFoundHeader stub ++ renderFieldAsString F stub.Data
                ++ ("\n\nClosest Match \n\n" ++ c.rule ++ ":"
                  ++ renderFieldAsString F c.expect)))) := by
  have hnil : cms = [] →
      notFoundTemplate F stub cms
        = some (notFoundHeader stub ++ renderFieldAsString F stub.Data) := by
    intro h
    subst h
    simp [notFoundTemplate]
  have hcons : cms ≠ [] →
      ∃ c ∈ cms, closestMatchOf F (renderFieldAsString F stub.Data) cms = some c
        ∧ notFoundTemplate F stub cms
          = some (notFoundHeader stub ++ renderFieldAsString F stub.Data
              ++ ("\n\nClosest Match \n\n" ++ c.rule ++ ":"
                ++ renderFieldAsString F c.expect)) := by
    intro hne
    obtain ⟨c, hc, hsel⟩ := closestMatchOf_mem F (renderFieldAsString F stub.Data) cms hne
    refine ⟨c, hc, hsel, ?_⟩
    have hlen : ¬ cms.length = 0 := fun h => hne (List.length_eq_zero.mp h)
    simp [notFoundTemplate, hlen, hsel]
  refine ⟨?_, ?_, ?_⟩
  · by_cases h : cms = []
    · simp [stubNotFoundError, hnil h]
    · obtain ⟨c, _, _, ht⟩ := hcons h
      simp [stubNotFoundError, ht]
  · intro h
    exact ⟨hnil h, by simp [stubNotFoundError, hnil h]⟩
  · intro h
    obtain ⟨c, hc, hsel, ht⟩ := hcons h
    exact ⟨c, hc, hsel, ht, by simp [stubNotFoundError, ht]⟩

/-- Witness of C15: with the candidates of ranks 0, 1 and 1 the message ends
on the closest-match section of the second. -/
theorem stubNotFoundError_sections_witness :
    ∃ c ∈ sampleCandidates,
      closestMatchOf goFmt (renderFieldAsString goFmt queryX.Data) sampleCandidates = some c
      ∧ notFoundTemplate goFmt queryX sampleCandidates
        = some (notFoundHeader queryX ++ renderFieldAsString goFmt queryX.Data
            ++ ("\n\nClosest Match \n\n" ++ c.rule ++ ":" ++ renderFieldAsString goFmt c.expect))
      ∧ stubNotFoundError goFmt queryX sampleCandidates
        = some (goFmt.errorf (notFoundHeader queryX ++ renderFieldAsString goFmt queryX.Data
            ++ ("\n\nClosest Match \n\n" ++ c.rule ++ ":"
              ++ renderFieldAsString goFmt c.expect))) :=
  (stubNotFoundError_sections goFmt queryX sampleCandidates).2.2 (List.cons_ne_nil _ _)

set_option maxRecDepth 100000 in
/-- C17, at the failing input: the lookup of the payload `a: "%d"` finds no
stub; the message assembled shows `%d`, and the text of the error returned,
which `fmt.Errorf` prints from this message taken as a format, shows
`%!d(MISSING)` in its place. -/
theorem errorf_mangles_percent :
    findStub goLib (storeStub [] stubEq).1 queryPercent
      = .error (.stubNotFound queryPercent
          [{ rule := "equals", expect := some [("a", .int 1), ("b", .str "x")] }])
    ∧ notFoundTemplate goFmt queryPercent
        [{ rule := "equals", expect := some [("a", .int 1), ("b", .str "x")] }]
      = some ("Can\x27t find stub \n\nService: Svc \n\nMethod: Get \n\nInput\n\n"
          ++ "\x7b\n\ta: %d\n\x7d\n\nClosest Match \n\nequals:\x7b\n\ta: 1\n\tb: x\n\x7d")
    ∧ errorText goFmt (findStub goLib (storeStub [] stubEq).1 queryPercent)
      = some ("Can\x27t find stub \n\nService: Svc \n\nMethod: Get \n\nInput\n\n"
          ++ "\x7b\n\ta: %!d(MISSING)\n\x7d\n\nClosest Match \n\nequals:\x7b\n\ta: 1\n\tb: x\n\x7d")
    ∧ errorText goFmt (findStub goLib (storeStub [] stubEq).1 queryPercent)
      ≠ notFoundTemplate goFmt queryPercent
          [{ rule := "equals", expect := some [("a", .int 1), ("b", .str "x")] }] := by
  refine ⟨rfl, by decide, by decide, by decide⟩

/-! ## The programs and the state -/

theorem storeStubProg_run {Output : Type} (stub : Stub Output) (R : stubMapping Output) :
    (storeStubProg stub).run R = ((storeStub R stub).2, (storeStub R stub).1) := by
  simp only [storeStubProg, storeStub]
  by_cases h : ((lookup stub.Service R).getD none).isNone = true
  · simp [h, StateT.run, bind, StateT.bind, get, getThe, MonadStateOf.get, StateT.get, set,
      StateT.set, pure, StateT.pure]
  · simp [h, StateT.run, bind, StateT.bind, get, getThe, MonadStateOf.get, StateT.get, set,
      StateT.set, pure, StateT.pure]

theorem clearStorageProg_run {Output : Type} (R : stubMapping Output) :
    (clearStorageProg : StateM (stubMapping Output) Unit).run R = ((), clearStorage R) := rfl

theorem allStubProg_run {Output : Type} (R : stubMapping Output) :
    (allStubProg : StateM (stubMapping Output) (stubMapping Output)).run R = (allStub R, R) :=
  rfl

theorem findStubProg_run {Output : Type} (L : Lib) (stub : findStubPayload)
    (R : stubMapping Output) :
    (findStubProg L stub).run R = (findStub L R stub, R) := by
  cases h1 : lookup stub.Service R with
  | none =>
    simp [findStubProg, findStub, serviceEntry, h1, StateT.run, bind, StateT.bind, get, getThe,
      MonadStateOf.get, StateT.get, pure, StateT.pure]
  | some inner =>
    cases h2 : lookup stub.Method (inner.getD []) with
    | none =>
      simp [findStubProg, findStub, serviceEntry, methodEntry, h1, h2, StateT.run, bind,
        StateT.bind, get, getThe, MonadStateOf.get, StateT.get, pure, StateT.pure]
    | some stubs =>
      by_cases h3 : stubs.length = 0
      · simp [findStubProg, findStub, serviceEntry, methodEntry, h1, h2, h3, StateT.run, bind,
          StateT.bind, get, getThe, MonadStateOf.get, StateT.get, pure, StateT.pure]
      · cases h4 : scan L stub.Data stubs [] <;>
          simp [findStubProg, findStub, serviceEntry, methodEntry, h1, h2, h3, h4, StateT.run,
            bind, StateT.bind, get, getThe, MonadStateOf.get, StateT.get, pure, StateT.pure]

/-- C12: the program of `findStub` leaves `stubStorage` as it found it, whether
it returns an output or one of its errors, and returns what `findStub` does;
the program of `allStub` leaves the state as it found it and returns that
state; the program of `storeStub`, by contrast, leaves the state `storeStub`
computes.  So the same lookup run again on the state left by the first, or on
the state left by `allStub`, returns the same output or an error of the same
kind. -/
theorem lookups_do_not_mutate {Output : Type} (L : Lib) (R : stubMapping Output)
    (stub : findStubPayload) :
    ((findStubProg L stub).run R).2 = R
    ∧ ((findStubProg L stub).run R).1 = findStub L R stub
    ∧ ((allStubProg : StateM (stubMapping Output) (stubMapping Output)).run R).2 = R
    ∧ ((allStubProg : StateM (stubMapping Output) (stubMapping Output)).run R).1 = R
    ∧ (∀ s : Stub Output, ((storeStubProg s).run R).2 = (storeStub R s).1)
    ∧ outcome ((findStubProg L stub).run ((findStubProg L stub).run R).2).1
        = outcome ((findStubProg L stub).run R).1
    ∧ outcome ((findStubProg L stub).run
          ((allStubProg : StateM (stubMapping Output) (stubMapping Output)).run R).2).1
        = outcome ((findStubProg L stub).run R).1 := by
  refine ⟨?_, ?_, ?_, ?_, ?_, ?_, ?_⟩
  · rw [findStubProg_run]
  · rw [findStubProg_run]
  · rw [allStubProg_run]
  · rw [allStubProg_run]
    rfl
  · intro s
    rw [storeStubProg_run]
  · rw [findStubProg_run, findStubProg_run]
  · rw [allStubProg_run, findStubProg_run]

/-! ## `reflect.DeepEqual` with the same-object shortcut -/

theorem lookup_eraseEntries (k : String) (m : List (String × RefValue)) :
    lookup k (eraseEntries m) = (lookup k m).map erase := by
  induction m with
  | nil => simp [eraseEntries, lookup]
  | cons p rest ih =>
    obtain ⟨k2, v⟩ := p
    by_cases h : k = k2 <;> simp [eraseEntries, lookup, h, ih]

theorem length_eraseEntries (m : List (String × RefValue)) :
    (eraseEntries m).length = m.length := by
  induction m with
  | nil => rfl
  | cons p rest ih =>
    obtain ⟨k, v⟩ := p
    simp [eraseEntries, ih]

theorem length_eraseElems (xs : List RefValue) : (eraseElems xs).length = xs.length := by
  induction xs with
  | nil => rfl
  | cons v rest ih => simp [eraseElems, ih]

theorem noNaN_of_mem {m : List (String × Value)} (h : noNaNEntries m = true)
    {kv : String × Value} (hkv : kv ∈ m) : noNaN kv.2 = true := by
  induction m with
  | nil => simp at hkv
  | cons p rest ih =>
    simp only [noNaNEntries, Bool.and_eq_true] at h
    rcases List.mem_cons.mp hkv with heq | hmem
    · subst heq
      exact h.1
    · exact ih h.2 hmem

mutual
/-- Two values whose contents are deeply equal are deeply equal. -/
theorem deepEqualRef_of_erase : ∀ v w : RefValue, deepEqual (erase v) (erase w) = true →
    deepEqualRef v w = true
  | .nil, w, h => by
    rcases w with _ | _ | _ | _ | _ | _ | _ | _ | _ | _ | ⟨_, _ | _⟩ | ⟨_, _ | _⟩ <;>
      first | rfl | simp [erase, deepEqual] at h
  | .str a, w, h => by
    rcases w with _ | _ | _ | _ | _ | _ | _ | _ | _ | _ | ⟨_, _ | _⟩ | ⟨_, _ | _⟩ <;>
      (simp only [erase, deepEqual] at h; simp only [deepEqualRef]; exact h)
  | .int a, w, h => by
    rcases w with _ | _ | _ | _ | _ | _ | _ | _ | _ | _ | ⟨_, _ | _⟩ | ⟨_, _ | _⟩ <;>
      (simp only [erase, deepEqual] at h; simp only [deepEqualRef]; exact h)
  | .int8 a, w, h => by
    rcases w with _ | _ | _ | _ | _ | _ | _ | _ | _ | _ | ⟨_, _ | _⟩ | ⟨_, _ | _⟩ <;>
      (simp only [erase, deepEqual] at h; simp only [deepEqualRef]; exact h)
  | .int16 a, w, h => by
    rcases w with _ | _ | _ | _ | _ | _ | _ | _ | _ | _ | ⟨_, _ | _⟩ | ⟨_, _ | _⟩ <;>
      (simp only [erase, deepEqual] at h; simp only [deepEqualRef]; exact h)
  | .int32 a, w, h => by
    rcases w with _ | _ | _ | _ | _ | _ | _ | _ | _ | _ | ⟨_, _ | _⟩ | ⟨_, _ | _⟩ <;>
      (simp only [erase, deepEqual] at h; simp only [deepEqualRef]; exact h)
  | .int64 a, w, h => by
    rcases w with _ | _ | _ | _ | _ | _ | _ | _ | _ | _ | ⟨_, _ | _⟩ | ⟨_, _ | _⟩ <;>
      (simp only [erase, deepEqual] at h; simp only [deepEqualRef]; exact h)
  | .float32 a, w, h => by
    rcases w with _ | _ | _ | _ | _ | _ | _ | _ | _ | _ | ⟨_, _ | _⟩ | ⟨_, _ | _⟩ <;>
      (simp only [erase, deepEqual] at h; simp only [deepEqualRef]; exact h)
  | .float64 a, w, h => by
    rcases w with _ | _ | _ | _ | _ | _ | _ | _ | _ | _ | ⟨_, _ | _⟩ | ⟨_, _ | _⟩ <;>
      (simp only [erase, deepEqual] at h; simp only [deepEqualRef]; exact h)
  | .bool a, w, h => by
    rcases w with _ | _ | _ | _ | _ | _ | _ | _ | _ | _ | ⟨_, _ | _⟩ | ⟨_, _ | _⟩ <;>
      (simp only [erase, deepEqual] at h; simp only [deepEqualRef]; exact h)
  | .map _ none, w, h => by
    rcases w with _ | _ | _ | _ | _ | _ | _ | _ | _ | _ | ⟨_, _ | _⟩ | ⟨_, _ | _⟩ <;>
      first | rfl | simp [erase, deepEqual] at h
  | .map a1 (some m1), w, h => by
    rcases w with _ | _ | _ | _ | _ | _ | _ | _ | _ | _ | ⟨a2, _ | m2⟩ | ⟨_, _ | _⟩ <;>
      try (simp [erase, deepEqual] at h; done)
    simp only [erase, deepEqual, Bool.and_eq_true, beq_iff_eq, length_eraseEntries] at h
    simp only [deepEqualRef, Bool.and_eq_true, beq_iff_eq, Bool.or_eq_true]
    exact ⟨h.1, Or.inr (deepEqualRefEntries_of_erase m1 m2 h.2)⟩
  | .slice _ none, w, h => by
    rcases w with _ | _ | _ | _ | _ | _ | _ | _ | _ | _ | ⟨_, _ | _⟩ | ⟨_, _ | _⟩ <;>
      first | rfl | simp [erase, deepEqual] at h
  | .slice a1 (some xs), w, h => by
    rcases w with _ | _ | _ | _ | _ | _ | _ | _ | _ | _ | ⟨_, _ | _⟩ | ⟨a2, _ | ys⟩ <;>
      try (simp [erase, deepEqual] at h; done)
    simp only [erase, deepEqual] at h
    have hlen : xs.length = ys.length := deepEqualElems_length xs ys h
    simp only [deepEqualRef, Bool.and_eq_true, beq_iff_eq, Bool.or_eq_true]
    exact ⟨hlen, Or.inr (deepEqualRefElems_of_erase xs ys h)⟩
theorem deepEqualRefEntries_of_erase : ∀ m1 m2 : List (String × RefValue),
    deepEqualEntries (eraseEntries m1) (eraseEntries m2) = true →
    deepEqualRefEntries m1 m2 = true
  | [], _, _ => by simp [deepEqualRefEntries]
  | (k, v) :: rest, m2, h => by
    simp only [eraseEntries, deepEqualEntries, lookup_eraseEntries] at h
    cases hl : lookup k m2 with
    | none => simp [hl] at h
    | some v2 =>
      simp only [hl, Option.map_some', Bool.and_eq_true] at h
      simp only [deepEqualRefEntries, hl, Bool.and_eq_true]
      exact ⟨deepEqualRef_of_erase v v2 h.1, deepEqualRefEntries_of_erase rest m2 h.2⟩
theorem deepEqualRefElems_of_erase : ∀ xs ys : List RefValue,
    deepEqualElems (eraseElems xs) (eraseElems ys) = true → deepEqualRefElems xs ys = true
  | [], ys, h => by
    cases ys with
    | nil => rfl
    | cons _ _ => simp [eraseElems, deepEqualElems] at h
  | x :: xs, ys, h => by
    cases ys with
    | nil => simp [eraseElems, deepEqualElems] at h
    | cons y ys =>
      simp only [eraseElems, deepEqualElems, Bool.and_eq_true] at h
      simp only [deepEqualRefElems, Bool.and_eq_true]
      exact ⟨deepEqualRef_of_erase x y h.1, deepEqualRefElems_of_erase xs ys h.2⟩
theorem deepEqualElems_length : ∀ xs ys : List RefValue,
    deepEqualElems (eraseElems xs) (eraseElems ys) = true → xs.length = ys.length
  | [], ys, h => by
    cases ys with
    | nil => rfl
    | cons _ _ => simp [eraseElems, deepEqualElems] at h
  | x :: xs, ys, h => by
    cases ys with
    | nil => simp [eraseElems, deepEqualElems] at h
    | cons y ys =>
      simp only [eraseElems, deepEqualElems, Bool.and_eq_true] at h
      simp [deepEqualElems_length xs ys h.2]
end

theorem erase_value (f : RefFields) : erase f.value = .map f.content := by
  obtain ⟨a, m⟩ := f
  cases m <;> rfl

theorem deepEqualRefElems_length : ∀ xs ys : List RefValue, deepEqualRefElems xs ys = true →
    xs.length = ys.length
  | [], [], _ => rfl
  | [], _ :: _, h => by simp [deepEqualRefElems] at h
  | _ :: _, [], h => by simp [deepEqualRefElems] at h
  | _ :: xs, _ :: ys, h => by
    simp only [deepEqualRefElems, Bool.and_eq_true] at h
    simp [deepEqualRefElems_length xs ys h.2]

mutual
/-- Two coherent values that are deeply equal have deeply-equal contents, when
the second holds no NaN. -/
theorem deepEqual_erase_of_ref : ∀ v w : RefValue, deepEqualRef v w = true → coherent v w →
    noNaN (erase w) = true → distinctKeys (erase w) = true →
    deepEqual (erase v) (erase w) = true
  | .nil, w, h, _, _, _ => by
    rcases w with _ | _ | _ | _ | _ | _ | _ | _ | _ | _ | ⟨_, _ | _⟩ | ⟨_, _ | _⟩ <;>
      first | rfl | simp [deepEqualRef] at h
  | .str a, w, h, _, _, _ => by
    rcases w with _ | _ | _ | _ | _ | _ | _ | _ | _ | _ | ⟨_, _ | _⟩ | ⟨_, _ | _⟩ <;>
      (simp only [deepEqualRef] at h; simp only [erase, deepEqual]; exact h)
  | .int a, w, h, _, _, _ => by
    rcases w with _ | _ | _ | _ | _ | _ | _ | _ | _ | _ | ⟨_, _ | _⟩ | ⟨_, _ | _⟩ <;>
      (simp only [deepEqualRef] at h; simp only [erase, deepEqual]; exact h)
  | .int8 a, w, h, _, _, _ => by
    rcases w with _ | _ | _ | _ | _ | _ | _ | _ | _ | _ | ⟨_, _ | _⟩ | ⟨_, _ | _⟩ <;>
      (simp only [deepEqualRef] at h; simp only [erase, deepEqual]; exact h)
  | .int16 a, w, h, _, _, _ => by
    rcases w with _ | _ | _ | _ | _ | _ | _ | _ | _ | _ | ⟨_, _ | _⟩ | ⟨_, _ | _⟩ <;>
      (simp only [deepEqualRef] at h; simp only [erase, deepEqual]; exact h)
  | .int32 a, w, h, _, _, _ => by
    rcases w with _ | _ | _ | _ | _ | _ | _ | _ | _ | _ | ⟨_, _ | _⟩ | ⟨_, _ | _⟩ <;>
      (simp only [deepEqualRef] at h; simp only [erase, deepEqual]; exact h)
  | .int64 a, w, h, _, _, _ => by
    rcases w with _ | _ | _ | _ | _ | _ | _ | _ | _ | _ | ⟨_, _ | _⟩ | ⟨_, _ | _⟩ <;>
      (simp only [deepEqualRef] at h; simp only [erase, deepEqual]; exact h)
  | .float32 a, w, h, _, _, _ => by
    rcases w with _ | _ | _ | _ | _ | _ | _ | _ | _ | _ | ⟨_, _ | _⟩ | ⟨_, _ | _⟩ <;>
      (simp only [deepEqualRef] at h; simp only [erase, deepEqual]; exact h)
  | .float64 a, w, h, _, _, _ => by
    rcases w with _ | _ | _ | _ | _ | _ | _ | _ | _ | _ | ⟨_, _ | _⟩ | ⟨_, _ | _⟩ <;>
      (simp only [deepEqualRef] at h; simp only [erase, deepEqual]; exact h)
  | .bool a, w, h, _, _, _ => by
    rcases w with _ | _ | _ | _ | _ | _ | _ | _ | _ | _ | ⟨_, _ | _⟩ | ⟨_, _ | _⟩ <;>
      (simp only [deepEqualRef] at h; simp only [erase, deepEqual]; exact h)
  | .map _ none, w, h, _, _, _ => by
    rcases w with _ | _ | _ | _ | _ | _ | _ | _ | _ | _ | ⟨_, _ | _⟩ | ⟨_, _ | _⟩ <;>
      first | rfl | simp [deepEqualRef] at h
  | .map a1 (some m1), w, h, hc, hn, hd => by
    rcases w with _ | _ | _ | _ | _ | _ | _ | _ | _ | _ | ⟨a2, _ | m2⟩ | ⟨_, _ | _⟩ <;>
      try (simp [deepEqualRef] at h; done)
    simp only [deepEqualRef, Bool.and_eq_true, beq_iff_eq, Bool.or_eq_true] at h
    simp only [coherent] at hc
    rcases h.2 with ha | he
    · have hq : erase (.map a1 (some m1)) = erase (.map a2 (some m2)) := by
        simp only [erase, hc.1 ha]
      rw [hq]
      exact deepEqual_self _ hn hd
    · simp only [erase, noNaN] at hn
      simp only [erase, distinctKeys, Bool.and_eq_true] at hd
      simp only [erase, deepEqual, Bool.and_eq_true, beq_iff_eq, length_eraseEntries]
      exact ⟨h.1, deepEqualEntries_erase_of_ref m1 m2 he hc.2 hn hd.2⟩
  | .slice _ none, w, h, _, _, _ => by
    rcases w with _ | _ | _ | _ | _ | _ | _ | _ | _ | _ | ⟨_, _ | _⟩ | ⟨_, _ | _⟩ <;>
      first | rfl | simp [deepEqualRef] at h
  | .slice a1 (some xs), w, h, hc, hn, hd => by
    rcases w with _ | _ | _ | _ | _ | _ | _ | _ | _ | _ | ⟨_, _ | _⟩ | ⟨a2, _ | ys⟩ <;>
      try (simp [deepEqualRef] at h; done)
    simp only [deepEqualRef, Bool.and_eq_true, beq_iff_eq, Bool.or_eq_true] at h
    simp only [coherent] at hc
    rcases h.2 with ha | he
    · have hq : erase (.slice a1 (some xs)) = erase (.slice a2 (some ys)) := by
        simp only [erase, hc.1 ha h.1]
      rw [hq]
      exact deepEqual_self _ hn hd
    · simp only [erase, noNaN] at hn
      simp only [erase, distinctKeys] at hd
      simp only [erase, deepEqual]
      exact deepEqualElems_erase_of_ref xs ys he hc.2 hn hd
theorem deepEqualEntries_erase_of_ref : ∀ m1 m2 : List (String × RefValue),
    deepEqualRefEntries m1 m2 = true → coherentEntries m1 m2 →
    noNaNEntries (eraseEntries m2) = true → distinctKeysEntries (eraseEntries m2) = true →
    deepEqualEntries (eraseEntries m1) (eraseEntries m2) = true
  | [], _, _, _, _, _ => by simp [eraseEntries, deepEqualEntries]
  | (k, v) :: rest, m2, h, hc, hn, hd => by
    simp only [deepEqualRefEntries] at h
    simp only [coherentEntries] at hc
    cases hl : lookup k m2 with
    | none => simp [hl] at h
    | some v2 =>
      simp only [hl, Bool.and_eq_true] at h hc
      have hl2 : lookup k (eraseEntries m2) = some (erase v2) := by
        rw [lookup_eraseEntries, hl]
        rfl
      have hmem := mem_of_lookup_eq_some hl2
      simp only [eraseEntries, deepEqualEntries, hl2, Bool.and_eq_true]
      exact ⟨deepEqual_erase_of_ref v v2 h.1 hc.1 (noNaN_of_mem hn hmem)
          (distinctKeys_of_mem hd hmem),
        deepEqualEntries_erase_of_ref rest m2 h.2 hc.2 hn hd⟩
theorem deepEqualElems_erase_of_ref : ∀ xs ys : List RefValue,
    deepEqualRefElems xs ys = true → coherentElems xs ys →
    noNaNElems (eraseElems ys) = true → distinctKeysElems (eraseElems ys) = true →
    deepEqualElems (eraseElems xs) (eraseElems ys) = true
  | [], ys, h, _, _, _ => by
    cases ys with
    | nil => rfl
    | cons _ _ => simp [deepEqualRefElems] at h
  | x :: xs, ys, h, hc, hn, hd => by
    cases ys with
    | nil => simp [deepEqualRefElems] at h
    | cons y ys =>
      simp only [deepEqualRefElems, Bool.and_eq_true] at h
      simp only [coherentElems] at hc
      simp only [eraseElems, noNaNElems, Bool.and_eq_true] at hn
      simp only [eraseElems, distinctKeysElems, Bool.and_eq_true] at hd
      simp only [eraseElems, deepEqualElems, Bool.and_eq_true]
      exact ⟨deepEqual_erase_of_ref x y h.1 hc.1 hn.1 hd.1,
        deepEqualElems_erase_of_ref xs ys h.2 hc.2 hn.2 hd.2⟩
end

/-- On two coherent values of which the second holds no NaN, `reflect.DeepEqual`
answers as it does on their contents: the same-object shortcut changes nothing. -/
theorem deepEqualRef_eq_deepEqual (v w : RefValue) (hc : coherent v w)
    (hn : noNaN (erase w) = true) (hd : distinctKeys (erase w) = true) :
    deepEqualRef v w = deepEqual (erase v) (erase w) :=
  Bool.eq_iff_iff.mpr
    ⟨fun h => deepEqual_erase_of_ref v w h hc hn hd, deepEqualRef_of_erase v w⟩

theorem containsRefLoop_eq (actual : RefFields) (l : List (String × RefValue)) :
    containsRefLoop actual l = deepEqualRefEntries l (actual.m.getD []) := by
  induction l with
  | nil => simp [containsRefLoop, deepEqualRefEntries]
  | cons p rest ih =>
    obtain ⟨k, v⟩ := p
    cases hl : lookup k (actual.m.getD []) with
    | none => simp [containsRefLoop, deepEqualRefEntries, hl]
    | some w =>
      cases hq : deepEqualRef v w <;> simp [containsRefLoop, deepEqualRefEntries, hl, hq, ih]

/-! ## Equals and contains -/

/-- C20, as amended: for an expectation `E` that holds no floating-point NaN
and a payload `D`, which may be the same object as `E` or share objects with it
(the maps having distinct keys, and one object one content, as in Go),
`equals(D, E)` implies `contains(E, D)`.  The converse fails: the payload
`a: 1, b: 2` contains the expectation `a: 1` and does not equal it, its key `b`
being absent from the expectation. -/
theorem equals_implies_contains (D E : RefFields) (hc : coherent D.value E.value)
    (hD : distinctKeys (.map D.content) = true) (hE : distinctKeys (.map E.content) = true)
    (hn : noNaN (.map E.content) = true) :
    (equalsRef D E = true → containsRef E D = true)
    ∧ containsRef expectA dataAB = true
    ∧ equalsRef dataAB expectA = false
    ∧ lookup "b" (expectA.m.getD []) = none
    ∧ (lookup "b" (dataAB.m.getD [])).isSome = true := by
  refine ⟨?_, by decide, by decide, rfl, by decide⟩
  intro h
  have h1 : deepEqual (erase D.value) (erase E.value) = true :=
    deepEqual_erase_of_ref D.value E.value h hc (by rw [erase_value]; exact hn)
      (by rw [erase_value]; exact hE)
  rw [erase_value, erase_value] at h1
  have h2 : deepEqual (.map E.content) (.map D.content) = true := deepEqual_symm _ _ hD hE h1
  obtain ⟨aD, d⟩ := D
  obtain ⟨aE, e⟩ := E
  unfold containsRef
  rw [containsRefLoop_eq]
  cases e with
  | none => simp [deepEqualRefEntries]
  | some e =>
    cases d with
    | none => simp [RefFields.content, deepEqual] at h2
    | some d =>
      simp only [RefFields.content, Option.map_some', deepEqual, Bool.and_eq_true] at h2
      exact deepEqualRefEntries_of_erase e d h2.2

/-- Witness of C20 as amended: a payload and an expectation that are two map
objects sharing the object under `sub`; the payload equals the expectation,
and contains it. -/
theorem equals_implies_contains_witness :
    equalsRef dataShared expectShared = true ∧ containsRef expectShared dataShared = true :=
  ⟨by decide,
    (equals_implies_contains dataShared expectShared
      (by simp [coherent, coherentEntries, dataShared, expectShared, subMap, RefFields.value,
        lookup])
      (by decide) (by decide) (by decide)).1 (by decide)⟩

/-- Counterexample to C20: for `D` and `E` the same map object, whose entry `a`
is a NaN, `equals(D, E)` is true, `reflect.DeepEqual` answering at once for one
object, and `contains(E, D)` is false, the NaN under `a` being compared with
`==`.  The object is coherent with itself and its keys are distinct: of the
conditions of the amended claim only the absence of NaN fails. -/
theorem equals_without_contains_on_NaN :
    equalsRef mapNaN mapNaN = true
    ∧ containsRef mapNaN mapNaN = false
    ∧ coherent mapNaN.value mapNaN.value
    ∧ distinctKeys (.map mapNaN.content) = true
    ∧ noNaN (.map mapNaN.content) = false := by
  refine ⟨by decide, by decide, ?_, by decide, by decide⟩
  simp [coherent, coherentEntries, mapNaN, RefFields.value, lookup]

/-! ## Equals, the whole payload -/

/-- C3, as amended: when the list of the queried service and method holds one
stub whose only mode is the equals mapping `E`, and `E` holds no floating-point
NaN, the lookup of a payload `D` (the maps having distinct keys, as Go maps
have) succeeds exactly when `D` is not nil and `D` and `E` have the same key
set with deeply-equal values under every key; when `E` has an entry, exactly
when they have the same key set with deeply-equal values.  Deeply-equal values
have the same type.  In every other case (a value differs, `D` has a key `E`
lacks, `D` lacks a key of `E`) the lookup fails with the stub-not-found error.
On such an `E` the function `equals` answers by the contents alone: whether the
payload is the stored map itself, shares objects with it, or is built apart,
`reflect.DeepEqual` with its same-object shortcut gives the answer used here. -/
theorem findStub_equals_strict {Output : Type} (L : Lib) (R : stubMapping Output)
    (stub : findStubPayload) (s : storage Output) (e : List (String × Value))
    (hm : methodEntry R stub.Service stub.Method = some [s])
    (hE : s.Input = { Equals := some e, Contains := none, Matches := none })
    (hdD : keysDistinct (entries stub.Data) = true)
    (hdE : distinctKeys (.map (some e)) = true) (hn : noNaN (.map (some e)) = true) :
    (findStub L R stub = .ok s.Output ↔
        stub.Data ≠ none ∧ sameEntries (entries stub.Data) e)
    ∧ (e ≠ [] → (findStub L R stub = .ok s.Output ↔ sameEntries (entries stub.Data) e))
    ∧ (findStub L R stub ≠ .ok s.Output →
        findStub L R stub = .error (.stubNotFound stub [{ rule := "equals", expect := some e }]))
    ∧ (∀ v w, deepEqual v w = true → typeName v = typeName w)
    ∧ (∀ D E : RefFields, D.content = stub.Data → E.content = some e →
        coherent D.value E.value → equalsRef D E = equals stub.Data (some e)) := by
  have hkE : keysDistinct e = true := by
    simp only [distinctKeys, Bool.and_eq_true] at hdE
    exact hdE.1
  have hhit : hits L stub.Data s = equals stub.Data (some e) := by
    simp [hits, hE]
  have hcand : candidates s = [{ rule := "equals", expect := some e }] := by
    simp [candidates, candidate, hE]
  have hfind : findStub L R stub =
      if equals stub.Data (some e) then .ok s.Output
      else .error (.stubNotFound stub [{ rule := "equals", expect := some e }]) := by
    rw [findStub_of_methodEntry L hm]
    cases hq : equals stub.Data (some e) <;> simp [hhit, hq, hcand]
  have hiff : findStub L R stub = .ok s.Output ↔
      stub.Data ≠ none ∧ sameEntries (entries stub.Data) e := by
    rw [← equals_iff stub.Data e hdD hkE, hfind]
    cases equals stub.Data (some e) <;> simp
  refine ⟨hiff, ?_, ?_, deepEqual_typeName, ?_⟩
  · intro hne
    rw [hiff]
    constructor
    · exact fun h => h.2
    · intro h
      refine ⟨?_, h⟩
      intro hnil
      exact sameEntries_ne_nil h hne (by simp [hnil, entries])
  · intro hno
    cases hq : equals stub.Data (some e) with
    | true => exact absurd (by rw [hfind]; simp [hq]) hno
    | false => rw [hfind]; simp [hq]
  · intro D E hD hEc hc
    unfold equalsRef equals
    rw [deepEqualRef_eq_deepEqual D.value E.value hc (by rw [erase_value, hEc]; exact hn)
      (by rw [erase_value, hEc]; exact hdE)]
    rw [erase_value, erase_value, hD, hEc]

/-- Witness of C3 as amended: the stub with equals mapping `a: 1, b: "x"`
answers the payload `b: "x", a: 1`, which has the same entries. -/
theorem findStub_equals_strict_witness :
    findStub goLib (storeStub [] stubEq).1
        { Service := "Svc", Method := "Get", Data := some [("b", .str "x"), ("a", .int 1)] }
      = .ok "eq"
    ∧ sameEntries [("b", .str "x"), ("a", .int 1)] [("a", .int 1), ("b", .str "x")] :=
  ⟨rfl,
    ((findStub_equals_strict goLib (storeStub [] stubEq).1
      { Service := "Svc", Method := "Get", Data := some [("b", .str "x"), ("a", .int 1)] }
      { Input := stubEq.Input, Output := "eq" } [("a", .int 1), ("b", .str "x")]
      rfl rfl (by decide) (by decide) (by decide)).2.1 (by simp)).mp rfl⟩

/-- Counterexample to C3: the only stub of `Svc`/`Get` has only the equals
mapping `E = id: 7, x: NaN`.  The payload `D = x: NaN, id: 7`, built apart, has
the keys of `E` and under each key the value of `E`, of the same type and the
same bits, yet the lookup fails with the stub-not-found error.  And when the
payload is the map object of `E` itself, `equals` answers true, so that the
lookup succeeds, though the value under `x` is not deeply equal to itself: the
two maps do not have deeply-equal values under every key. -/
theorem equals_strict_fails_on_NaN :
    methodEntry (storeStub [] stubNaN32).1 "Svc" "Get"
      = some [{ Input := stubNaN32.Input, Output := "out" }]
    ∧ findStub goLib (storeStub [] stubNaN32).1
        { Service := "Svc", Method := "Get", Data := some [("x", .float32 nan32), ("id", .int 7)] }
      = .error (.stubNotFound
          { Service := "Svc", Method := "Get",
            Data := some [("x", .float32 nan32), ("id", .int 7)] }
          [{ rule := "equals", expect := some [("id", .int 7), ("x", .float32 nan32)] }])
    ∧ (∀ k, lookup k [("x", Value.float32 nan32), ("id", Value.int 7)]
        = lookup k [("id", Value.int 7), ("x", Value.float32 nan32)])
    ∧ equalsRef mapNaN32 mapNaN32 = true
    ∧ deepEqualRef (.float32 nan32) (.float32 nan32) = false
    ∧ ¬ sameEntries (entries mapNaN32.content) (entries mapNaN32.content) := by
  refine ⟨rfl, rfl, ?_, by decide, by decide, ?_⟩
  · intro k
    by_cases h1 : k = "x"
    · subst h1
      rfl
    · by_cases h2 : k = "id"
      · subst h2
        rfl
      · simp [lookup, h1, h2]
  · intro h
    obtain ⟨w, hw, hq⟩ := h.2 "x" (.float32 nan32) rfl
    have hw2 : w = .float32 nan32 := by
      have : lookup "x" (entries mapNaN32.content) = some (Value.float32 nan32) := rfl
      rw [this] at hw
      exact (Option.some.inj hw).symm
    subst hw2
    revert hq
    decide

end stub
